import Mathlib

/-!
# StarlightMusic: the playback coordinator of `musicplayer.cpp`

A shallow embedding of `MusicPlayerPrivate` and of the member functions of
`MusicPlayer` that read and write it (`setProgress`, `play`, `suspend`,
`update`, `addMusicList`, the `resolved` handler), followed by theorems about
them.

Conventions of the embedding.

* `qreal` (a C++ `double`) is embedded as a rational. Comparisons, the
  subtraction of `setProgress` and the division of `update` are the exact
  ones. The two products of line 140, whose result is truncated to an integer,
  are rounded to binary64 as the machine rounds them (`mulDouble`). Infinities
  and NaN are outside the model.
* `int` and `int64_t` are embedded as integers; the conversion `int64_t(x)` of
  a `qreal` truncates toward zero, and the 64-bit multiplication of line 293
  wraps (`wrapInt64`).
* The collaborators whose code is not part of the file (the audio decoder, the
  audio sink, the timer, the lyric decoder, the two list models) appear through
  what the coordinator observes of them: the values they return are arguments
  of the embedded functions, and the calls made to them are appended to
  history fields of the state (`emitted`, `decoderCalls`, `written`).
-/

/-- The Qt floating-point type. -/
abbrev qreal := ℚ

/-- The Qt byte array: a finite sequence of bytes. -/
abbrev QByteArray := List UInt8

/-- The conversion `int64_t(x)`: truncation toward zero, for `x` within the
range of `int64_t` (outside it C++ leaves the conversion undefined). -/
def toInt64 (x : qreal) : Int := if 0 ≤ x then ⌊x⌋ else ⌈x⌉

/-- The Qt template `qAbs`: `t >= 0 ? t : -t`. -/
def qAbs (t : qreal) : qreal := if t ≥ 0 then t else -t

/-- Rounding to the nearest integer, a tie going to the even one. -/
def roundHalfEven (y : ℚ) : Int :=
  if y - ⌊y⌋ < 1 / 2 then ⌊y⌋
  else if 1 / 2 < y - ⌊y⌋ then ⌊y⌋ + 1
  else if ⌊y⌋ % 2 = 0 then ⌊y⌋ else ⌊y⌋ + 1

/-- The spacing of the binary64 numbers around `x`: 2 ^ (e - 52) for the
binary exponent `e` of `x`, and 2 ^ (-1074) in the subnormal range. -/
def doubleQuantum (x : ℚ) : ℚ := (2 : ℚ) ^ (max (Int.log 2 |x|) (-1022) - 52)

/-- The binary64 number nearest to `x`, ties to even (the IEEE 754 default
rounding). Results beyond the largest binary64 number stand for infinity and
are outside the embedding. -/
def roundDouble (x : ℚ) : ℚ := roundHalfEven (x / doubleQuantum x) * doubleQuantum x

/-- The product `x * y` of two `double` values as the machine computes it: the
exact product rounded to binary64. The arguments are read as the binary64
numbers nearest to them, which they are when they are `double` values. -/
def mulDouble (x y : qreal) : qreal := roundDouble (roundDouble x * roundDouble y)

/-- The two's-complement value that a 64-bit signed integer operation leaves
for the exact result `x`. -/
def wrapInt64 (x : Int) : Int := (x + 2 ^ 63) % 2 ^ 64 - 2 ^ 63

/-- The byte count `QByteArray::size()`, an `int`. -/
def QByteArray.size (b : QByteArray) : Int := (b.length : Int)

/-- The Qt call `QByteArray::mid(pos, len)` for `pos >= 0`: the `len` bytes from
position `pos`, fewer when the array ends before, and everything from `pos`
on when `len` is negative. -/
def QByteArray.mid (b : QByteArray) (pos len : Int) : QByteArray :=
  if len < 0 then b.drop pos.toNat else (b.drop pos.toNat).take len.toNat

/-- The Qt call `QByteArray::remove(pos, len)` for `pos >= 0` and `len >= 0`. -/
def QByteArray.remove (b : QByteArray) (pos len : Int) : QByteArray :=
  b.take pos.toNat ++ b.drop (pos.toNat + len.toNat)

/-- One packet returned by `AudioDecoder::currentPacket()`. -/
structure AudioPacket where
  time : qreal
  data : QByteArray
  deriving DecidableEq

/-- One lyric line (`LyricData`): its text and its timestamp in milliseconds. -/
structure LyricData where
  lyric : String
  pts : Int
  deriving DecidableEq

/-- Modelled from the spec: the class `LyricsModel` is declared outside the
file; the spec describes it as an ordered sequence of (timestamp, text)
entries that `setModel` replaces wholesale. -/
abbrev LyricsModel := List LyricData

/-- Modelled from the spec: `LyricsModel::count()`, the number of entries. -/
def LyricsModel.count (m : LyricsModel) : Int := (m.length : Int)

/-- Modelled from the spec: `LyricsModel::at(index)`, the entry at `index`.
Outside `0 <= index < count()` the model has no entry to give. -/
def LyricsModel.entryAt (m : LyricsModel) (index : Int) : Option LyricData :=
  if 0 ≤ index ∧ index < m.count then m.get? index.toNat else none

/-- The Qt signals of `MusicPlayer` (and `modelChanged` of the music model). -/
inductive Signal where
  | curMusicChanged
  | progressChanged
  | volumeChanged
  | titleChanged
  | singerChanged
  | albumChanged
  | durationChanged
  | playbillChanged
  | lyricIndexChanged
  | finished
  | modelChanged
  deriving DecidableEq

/-- The calls the coordinator makes on its `AudioDecoder`. -/
inductive DecoderCall where
  | open (filename : String)
  | setProgress (ratio : qreal)
  | stop
  deriving DecidableEq

/-- The class `MusicPlayerPrivate`, field by field. `m_playTimer` holds
`QTimer::isActive()`, `m_audioOutput` holds whether the sink has been created.
The last three fields are the history of what the coordinator did to its
collaborators: signals emitted, calls on the decoder, chunks written to
`m_audioDevice`. -/
structure MusicPlayerPrivate where
  m_running : Bool
  m_curMusic : String
  m_progress : qreal
  m_duration : qreal
  m_volume : Int
  m_title : String
  m_singer : String
  m_album : String
  m_audioBuffer : QByteArray
  m_playTimer : Bool
  m_audioOutput : Bool
  m_hasLyrics : Bool
  m_lyricsModel : LyricsModel
  m_musicModel : List String
  m_lyricIndex : Int
  m_nextIndex : Int
  m_files : List String
  emitted : List Signal
  decoderCalls : List DecoderCall
  written : List QByteArray
  deriving DecidableEq

/-- The ways a call can leave the embedding: a dereference of the sink before
it exists, the division by a zero period size, a timeline lookup outside the
entries, and the exhaustion of the recursion budget of the pull loop. -/
inductive Fault where
  | noSink
  | zeroPeriod
  | lyricOutOfRange
  | outOfFuel
  deriving DecidableEq

namespace MusicPlayer

/-- The state built by the constructor: the member initialisers of
`MusicPlayerPrivate`, an inactive timer, no sink, empty models. -/
def init : MusicPlayerPrivate :=
  { m_running := false, m_curMusic := "", m_progress := 0, m_duration := 0,
    m_volume := 100, m_title := "", m_singer := "", m_album := "",
    m_audioBuffer := [], m_playTimer := false, m_audioOutput := false,
    m_hasLyrics := false, m_lyricsModel := [], m_musicModel := [],
    m_lyricIndex := 0, m_nextIndex := 0, m_files := [],
    emitted := [], decoderCalls := [], written := [] }

/-- Appends one signal to the emission history. -/
def emit (s : MusicPlayerPrivate) (sig : Signal) : MusicPlayerPrivate :=
  { s with emitted := s.emitted ++ [sig] }

/-- The scan of `setProgress` (lines 142-149) over the entries not yet visited,
the first of them having index `i`: the index of the first entry with
`pts() > pts`, if there is one. -/
def firstAfter (pts : Int) : List LyricData → Int → Option Int
  | [], _ => none
  | e :: rest, i => if e.pts > pts then some i else firstAfter pts rest (i + 1)

/-- The acceptance test of `setProgress` (line 134). -/
def seekAccepted (s : MusicPlayerPrivate) (ratio : qreal) : Bool :=
  s.m_running && decide (qAbs (ratio - s.m_progress) > 1 / 1000000)

/-- The millisecond position of a seek (line 140),
`int64_t(ratio * d->m_duration * 1000)`: two `double` products, each rounded,
then the truncation. -/
def seekPts (ratio duration : qreal) : Int :=
  toInt64 (mulDouble (mulDouble ratio duration) 1000)

/-- The lyric re-synchronisation of `setProgress` (lines 139-150). -/
def seekLyrics (s : MusicPlayerPrivate) (ratio : qreal) : MusicPlayerPrivate :=
  if s.m_hasLyrics then
    let pts : Int := seekPts ratio s.m_duration
    let count : Int := s.m_lyricsModel.count
    match firstAfter pts s.m_lyricsModel 0 with
    | some i =>
      let lyricIndex : Int := if i > 0 then i - 1 else 0
      let nextIndex : Int := if lyricIndex + 1 < count then lyricIndex + 1 else count
      emit { s with m_lyricIndex := lyricIndex, m_nextIndex := nextIndex }
        Signal.lyricIndexChanged
    | none => s
  else s

/-- The member `MusicPlayer::setProgress(ratio)` (lines 132-152). -/
def setProgress (ratio : qreal) (s : MusicPlayerPrivate) : MusicPlayerPrivate :=
  if seekAccepted s ratio then
    let s1 := emit { s with m_progress := ratio, m_audioBuffer := [] }
      Signal.progressChanged
    let s2 := { s1 with decoderCalls := s1.decoderCalls ++ [DecoderCall.setProgress ratio] }
    seekLyrics s2 ratio
  else s

/-- The end-of-stream test of `update` (line 283). -/
def endOfStream (duration : qreal) (packet : AudioPacket) : Bool :=
  decide (packet.time ≥ duration) ||
    (packet.data.isEmpty && decide (packet.time < 1 / 100000000))

/-- The end-of-stream branch of `update` (lines 284-290). -/
def finishStream (s : MusicPlayerPrivate) : MusicPlayerPrivate :=
  emit (emit { s with m_progress := 1, m_running := false,
                      decoderCalls := s.decoderCalls ++ [DecoderCall.stop],
                      m_playTimer := false }
    Signal.finished) Signal.progressChanged

/-- The millisecond position `update` compares with the timeline (line 293),
`int64_t(currentTime) * 1000`: the truncation to whole seconds, then a 64-bit
signed multiplication, which wraps when the product leaves the range of
`int64_t`. -/
def lyricPts (currentTime : qreal) : Int := wrapInt64 (toInt64 currentTime * 1000)

/-- The lyric advance of `update` (lines 292-299). The second lookup is only
made when the first comparison holds, as `&&` evaluates. -/
def lyricStep (s : MusicPlayerPrivate) (currentTime : qreal) :
    Except Fault MusicPlayerPrivate :=
  if s.m_hasLyrics then
    let pts : Int := lyricPts currentTime
    match s.m_lyricsModel.entryAt s.m_lyricIndex with
    | none => Except.error Fault.lyricOutOfRange
    | some cur =>
      if pts > cur.pts then
        match s.m_lyricsModel.entryAt s.m_nextIndex with
        | none => Except.error Fault.lyricOutOfRange
        | some nxt =>
          if pts > nxt.pts then
            Except.ok (emit
              { s with m_lyricIndex := s.m_nextIndex,
                       m_nextIndex := if s.m_nextIndex + 1 < s.m_lyricsModel.count
                                      then s.m_nextIndex + 1 else s.m_nextIndex }
              Signal.lyricIndexChanged)
          else Except.ok s
      else Except.ok s
  else Except.ok s

/-- The else-branch of `update` for one packet that is not the end of the
stream (lines 291-302): lyric advance, then the progress assignment. -/
def packetStep (s : MusicPlayerPrivate) (currentTime : qreal) :
    Except Fault MusicPlayerPrivate :=
  match lyricStep s currentTime with
  | Except.error f => Except.error f
  | Except.ok s1 =>
    Except.ok (emit { s1 with m_progress := currentTime / s1.m_duration }
      Signal.progressChanged)

/-- What the pull loop of `update` hands over: the state, the number of
`currentPacket()` calls made, and whether it left through the `return` of the
end-of-stream branch. -/
structure Pulled where
  state : MusicPlayerPrivate
  pulls : Nat
  finished : Bool
  deriving DecidableEq

/-- The pull loop of `update` (lines 279-306). `src k` is the packet the
`k`-th call of `currentPacket()` returns, `bytesFree` the free capacity the
sink reports during this tick. The first argument bounds the number of
iterations; `update` passes a bound that is never reached. -/
def pullLoop (bytesFree : Int) (src : Nat → AudioPacket) :
    Nat → Nat → MusicPlayerPrivate → Except Fault Pulled
  | 0, k, s =>
    if s.m_audioBuffer.size < bytesFree then Except.error Fault.outOfFuel
    else Except.ok ⟨s, k, false⟩
  | fuel + 1, k, s =>
    if s.m_audioBuffer.size < bytesFree then
      let packet := src k
      if endOfStream s.m_duration packet then
        Except.ok ⟨finishStream s, k + 1, true⟩
      else
        match packetStep s packet.time with
        | Except.error f => Except.error f
        | Except.ok s1 =>
          if packet.data.isEmpty then Except.ok ⟨s1, k + 1, false⟩
          else pullLoop bytesFree src fuel (k + 1)
            { s1 with m_audioBuffer := s1.m_audioBuffer ++ packet.data }
    else Except.ok ⟨s, k, false⟩

/-- The body of the drain loop of `update` (lines 310-317), run at most the
given number of times: the remaining buffer and the chunks written. -/
def drainLoop (readSize : Int) : Nat → QByteArray → List QByteArray →
    QByteArray × List QByteArray
  | 0, buf, out => (buf, out)
  | n + 1, buf, out =>
    let pcm := buf.mid 0 readSize
    let size : Int := pcm.size
    let buf1 := buf.remove 0 size
    let out1 := if size ≠ 0 then out ++ [pcm] else out
    if size ≠ readSize then (buf1, out1) else drainLoop readSize n buf1 out1

/-- The drain phase of `update` (lines 308-317). `chunks` is the truncating
quotient; `while (chunks--)` runs the body `chunks` times at most when
`chunks >= 0`, and when `chunks < 0` (a negative period size) the first pass
leaves through `break`, `size` being non-negative. -/
def drain (readSize : Int) (s : MusicPlayerPrivate) : Except Fault MusicPlayerPrivate :=
  if readSize = 0 then Except.error Fault.zeroPeriod
  else
    let chunks : Int := Int.tdiv s.m_audioBuffer.size readSize
    let passes : Nat := if chunks < 0 then 1 else chunks.toNat
    let r := drainLoop readSize passes s.m_audioBuffer []
    Except.ok { s with m_audioBuffer := r.1, written := s.written ++ r.2 }

/-- The number of iterations that the pull loop cannot exceed: each iteration
that continues appends at least one byte. -/
def pullBudget (bytesFree : Int) (s : MusicPlayerPrivate) : Nat :=
  (bytesFree - s.m_audioBuffer.size).toNat

/-- The slot `MusicPlayer::update()` (lines 277-318), one pump tick. -/
def update (bytesFree periodSize : Int) (src : Nat → AudioPacket)
    (s : MusicPlayerPrivate) : Except Fault Pulled :=
  if s.m_audioOutput then
    match pullLoop bytesFree src (pullBudget bytesFree s) 0 s with
    | Except.error f => Except.error f
    | Except.ok r =>
      if r.finished then Except.ok r
      else
        match drain periodSize r.state with
        | Except.error f => Except.error f
        | Except.ok s1 => Except.ok { r with state := s1 }
  else Except.error Fault.noSink

/-- The member `MusicPlayer::setCurMusic(url)` (lines 119-125). -/
def setCurMusic (url : String) (s : MusicPlayerPrivate) : MusicPlayerPrivate :=
  if url ≠ s.m_curMusic then emit { s with m_curMusic := url } Signal.curMusicChanged
  else s

/-- The member `MusicPlayer::suspend()` (lines 248-252). -/
def suspend (s : MusicPlayerPrivate) : MusicPlayerPrivate :=
  if s.m_playTimer then { s with m_playTimer := false } else s

/-- What `play` finds at the sidecar path: no file, a file that
`LrcDecoder::decode` refuses, or a decoded file with the packets that
`readPacket()` returns before the empty one. -/
inductive LrcFile where
  | absent
  | undecodable
  | decoded (entries : List LyricData)
  deriving DecidableEq

/-- The member `MusicPlayer::play(url)` (lines 210-246). The local file name
of the URL is the URL string itself. -/
def play (url : String) (lrc : LrcFile) (s : MusicPlayerPrivate) : MusicPlayerPrivate :=
  let s1 := setCurMusic url (suspend s)
  let s2 := emit { s1 with m_running := false, m_progress := 0 } Signal.progressChanged
  let s3 := emit { s2 with m_audioBuffer := [], m_hasLyrics := false } Signal.playbillChanged
  let s4 := { s3 with decoderCalls := s3.decoderCalls ++ [DecoderCall.open url],
                      m_lyricIndex := 0, m_nextIndex := 0 }
  match lrc with
  | LrcFile.decoded entries =>
    let s5 := { s4 with m_lyricsModel := entries, m_hasLyrics := true }
    if s5.m_nextIndex + 1 < s5.m_lyricsModel.count then
      { s5 with m_nextIndex := s5.m_nextIndex + 1 }
    else s5
  | _ => s4

/-- The handler of `AudioDecoder::resolved` (lines 85-100); the arguments are
what the decoder reports for the opened track. -/
def resolved (title singer album : String) (duration : qreal)
    (s : MusicPlayerPrivate) : MusicPlayerPrivate :=
  let s1 := { s with m_running := true, m_title := title, m_singer := singer,
                     m_album := album, m_duration := duration }
  let s2 := emit (emit (emit (emit s1 Signal.titleChanged) Signal.singerChanged)
    Signal.albumChanged) Signal.durationChanged
  { s2 with m_audioOutput := true, m_playTimer := true }

/-- The state after the advance branch of `update` (lines 295-297). -/
def advanced (s : MusicPlayerPrivate) : MusicPlayerPrivate :=
  emit { s with m_lyricIndex := s.m_nextIndex,
                m_nextIndex := if s.m_nextIndex + 1 < s.m_lyricsModel.count
                               then s.m_nextIndex + 1 else s.m_nextIndex }
    Signal.lyricIndexChanged

/-- The state after the found branch of the scan of `setProgress`
(lines 144-146), for the found index `i`. -/
def synced (s : MusicPlayerPrivate) (i : Int) : MusicPlayerPrivate :=
  emit { s with m_lyricIndex := if i > 0 then i - 1 else 0,
                m_nextIndex := if (if i > 0 then i - 1 else 0) + 1 < s.m_lyricsModel.count
                               then (if i > 0 then i - 1 else 0) + 1
                               else s.m_lyricsModel.count }
    Signal.lyricIndexChanged

/-- The signals emitted between an earlier state and a later one. -/
def emittedSince (s s1 : MusicPlayerPrivate) : List Signal :=
  s1.emitted.drop s.emitted.length

/-- The bytes of the first `n` packets of a source, in pull order. -/
def pulledData (src : Nat → AudioPacket) (n : Nat) : QByteArray :=
  ((List.range n).map (fun i => (src i).data)).flatten

/-- The timeline of the seek scenario: entries at 0, 5000 and 12000 ms. -/
def scenarioLyrics : List LyricData := [⟨"first", 0⟩, ⟨"second", 5000⟩, ⟨"third", 12000⟩]

/-- The state of the seek scenario: a track with the three-entry timeline has
been played and resolved with a duration of 200 s. -/
def scenarioState : MusicPlayerPrivate :=
  resolved "title" "singer" "album" 200
    (play "song.mp3" (LrcFile.decoded scenarioLyrics) init)

/-- A source whose every packet reports the time 200 s and carries no data. -/
def endedSource : Nat → AudioPacket := fun _ => ⟨200, []⟩

/-- The outcome of a tick of the scenario state on the ended source. -/
def scenarioEnded : Pulled := ⟨finishStream scenarioState, 1, true⟩

/-- A source that delivers three bytes at 1 s, then has nothing ready at 2 s. -/
def stallingSource : Nat → AudioPacket := fun k =>
  if k = 0 then ⟨1, [1, 2, 3]⟩ else ⟨2, []⟩

/-- A state with one staged byte, no lyrics, a sink and a 200 s track. -/
def stagedState : MusicPlayerPrivate :=
  { init with m_running := true, m_duration := 200, m_audioBuffer := [9],
              m_audioOutput := true, m_playTimer := true }

/-- The outcome of the pull loop on `stagedState` and `stallingSource`. -/
def stagedPulled : Pulled :=
  { state := { stagedState with
                 m_audioBuffer := [9, 1, 2, 3]
                 m_progress := 2 / 200
                 emitted := [Signal.progressChanged, Signal.progressChanged] }
    pulls := 2
    finished := false }

/-- The consecutive slices of `q` bytes of a buffer, the first `n` of them. -/
def slices (q : Nat) (b : QByteArray) (n : Nat) : List QByteArray :=
  (List.range n).map (fun i => (b.drop (i * q)).take q)

/-- The state of the drain scenario: 3000 bytes staged. -/
def drainScenario : MusicPlayerPrivate :=
  { stagedState with m_audioBuffer := List.replicate 3000 0 }

/-- The scenario state after a packet at 13 s: the cursor has moved to (1, 2). -/
def scenarioSecond : MusicPlayerPrivate :=
  { scenarioState with
      m_lyricIndex := 1
      m_nextIndex := 2
      m_progress := 13 / 200
      emitted := scenarioState.emitted ++ [Signal.lyricIndexChanged, Signal.progressChanged] }

/-- The state after a second packet at 13 s: the cursor is on the last entry. -/
def scenarioLast : MusicPlayerPrivate :=
  { scenarioSecond with
      m_lyricIndex := 2
      m_nextIndex := 2
      emitted := scenarioSecond.emitted ++ [Signal.lyricIndexChanged, Signal.progressChanged] }

/-- The state after a third packet at 13 s: only the emission history grew. -/
def scenarioLastAgain : MusicPlayerPrivate :=
  { scenarioLast with
      emitted := scenarioLast.emitted ++ [Signal.lyricIndexChanged, Signal.progressChanged] }

/-- The scenario state after a packet at 5.9 s: the cursor is where it was. -/
def scenarioLate : MusicPlayerPrivate :=
  { scenarioState with
      m_progress := 59 / 10 / 200
      emitted := scenarioState.emitted ++ [Signal.progressChanged] }

/-- A source whose every packet reports the time 13 s and carries no data. -/
def lateSource : Nat → AudioPacket := fun _ => ⟨13, []⟩

/-- The outcome of a tick of the scenario state on `lateSource`. -/
def scenarioTicked : Pulled :=
  { state := scenarioSecond
    pulls := 1
    finished := false }

end MusicPlayer

/-- The states the coordinator can be in: the constructed state, and what
`play`, the `resolved` handler, `setProgress` and a completed `update` make of
such a state, for any arguments and any behaviour of the collaborators. -/
inductive Reachable : MusicPlayerPrivate → Prop where
  | init : Reachable MusicPlayer.init
  | play (url : String) (lrc : MusicPlayer.LrcFile) {s : MusicPlayerPrivate} :
      Reachable s → Reachable (MusicPlayer.play url lrc s)
  | resolved (title singer album : String) (duration : qreal) {s : MusicPlayerPrivate} :
      Reachable s → Reachable (MusicPlayer.resolved title singer album duration s)
  | setProgress (ratio : qreal) {s : MusicPlayerPrivate} :
      Reachable s → Reachable (MusicPlayer.setProgress ratio s)
  | update (bytesFree periodSize : Int) (src : Nat → AudioPacket)
      {s : MusicPlayerPrivate} {r : MusicPlayer.Pulled} :
      Reachable s → MusicPlayer.update bytesFree periodSize src s = Except.ok r →
      Reachable r.state

/-- The table `SubtitleFormat` (lines 17-25): the suffixes mapped to `true`. -/
def SubtitleFormat : List String :=
  ["srt", "SRT", "ssa", "SSA", "ass", "ASS", "txt", "TXT",
   "lrc", "LRC", "sup", "SUP", "stl", "STL", "aqt", "AQT",
   "smi", "SMI", "pjs", "PJS", "rt", "RT", "sami", "SAMI"]

/-- The member `MusicPlayerPrivate::contains(filename)` (lines 53-61): the
answer and the state after the call. `m_files` only ever maps a key to `true`
and is embedded as the list of its keys. -/
def MusicPlayerPrivate.contains (s : MusicPlayerPrivate) (filename : String) :
    Bool × MusicPlayerPrivate :=
  if filename ∈ s.m_files then (true, s)
  else (false, { s with m_files := s.m_files ++ [filename] })

namespace MusicPlayer

/-- The body of the loop of `addMusicList` (lines 263-271) for one URL.
`toLocalFile` is `QUrl::toLocalFile`, `suffix` is `QFileInfo(..).suffix()`,
and `create url` tells whether `MusicData::create` returns an object for the
URL; the music model is embedded as the list of the URLs appended to it. -/
def addMusic (toLocalFile suffix : String → String) (create : String → Bool)
    (s : MusicPlayerPrivate) (url : String) : MusicPlayerPrivate :=
  let filename := toLocalFile url
  if suffix filename ∈ SubtitleFormat then s
  else
    let q := s.contains filename
    if q.1 then q.2
    else if create url then { q.2 with m_musicModel := q.2.m_musicModel ++ [url] }
    else q.2

/-- The member `MusicPlayer::addMusicList(urls)` (lines 260-275). -/
def addMusicList (toLocalFile suffix : String → String) (create : String → Bool)
    (urls : List String) (s : MusicPlayerPrivate) : MusicPlayerPrivate :=
  emit (urls.foldl (addMusic toLocalFile suffix create) s) Signal.modelChanged

/-- A sequence of `addMusicList` calls, one per list of URLs. -/
def addMusicLists (toLocalFile suffix : String → String) (create : String → Bool)
    (calls : List (List String)) (s : MusicPlayerPrivate) : MusicPlayerPrivate :=
  calls.foldl (fun s1 urls => addMusicList toLocalFile suffix create urls s1) s

/-- A sequence of `contains` queries: the answers in order, and the state
after the last one. -/
def containsEach : List String → MusicPlayerPrivate → List Bool × MusicPlayerPrivate
  | [], s => ([], s)
  | f :: rest, s =>
    let q := s.contains f
    let r := containsEach rest q.2
    (q.1 :: r.1, r.2)

end MusicPlayer

namespace MusicPlayer

/-- The suffix function of the example: `lrc` for the lyric file, `mp3` for
every other name. -/
def exampleSuffix : String → String := fun f => if f = "b.lrc" then "lrc" else "mp3"

/-- The URLs of the example: one track twice, a lyric file, another track. -/
def exampleUrls : List String := ["a.mp3", "a.mp3", "b.lrc", "c.mp3"]

end MusicPlayer

/-- The states reachable when every resolution reports a duration greater
than 0, every seek asks for a ratio between 0 and 1, and every packet pulled
by a tick has a time of at least 0. -/
inductive ReachableWithin : MusicPlayerPrivate → Prop where
  | init : ReachableWithin MusicPlayer.init
  | play (url : String) (lrc : MusicPlayer.LrcFile) {s : MusicPlayerPrivate} :
      ReachableWithin s → ReachableWithin (MusicPlayer.play url lrc s)
  | resolved (title singer album : String) (duration : qreal) {s : MusicPlayerPrivate} :
      0 < duration → ReachableWithin s →
      ReachableWithin (MusicPlayer.resolved title singer album duration s)
  | setProgress (ratio : qreal) {s : MusicPlayerPrivate} :
      0 ≤ ratio → ratio ≤ 1 → ReachableWithin s →
      ReachableWithin (MusicPlayer.setProgress ratio s)
  | update (bytesFree periodSize : Int) (src : Nat → AudioPacket)
      {s : MusicPlayerPrivate} {r : MusicPlayer.Pulled} :
      (∀ k, 0 ≤ (src k).time) → ReachableWithin s →
      MusicPlayer.update bytesFree periodSize src s = Except.ok r →
      ReachableWithin r.state

namespace MusicPlayer

/-- The state after `play` of a track whose lyric file decodes to no entry,
followed by the resolution of the track with a duration of 200 s. -/
def emptyLyricsState : MusicPlayerPrivate :=
  resolved "title" "singer" "album" 200
    (play "song.mp3" (LrcFile.decoded []) init)

/-- The state after `play` of a track without lyric file, followed by a
resolution that reports the duration 0. -/
def zeroDurationState : MusicPlayerPrivate :=
  resolved "title" "singer" "album" 0 (play "song.mp3" LrcFile.absent init)

/-- A source whose every packet reports the time 0 and carries one byte. -/
def startingSource : Nat → AudioPacket := fun _ => ⟨0, [7]⟩

/-- The outcome of a tick of `zeroDurationState` on `startingSource`. -/
def zeroDurationEnded : Pulled := ⟨finishStream zeroDurationState, 1, true⟩

/-- A timeline with a single entry, at 5000 ms. -/
def singleLyrics : List LyricData := [⟨"only", 5000⟩]

/-- The state after `play` of a track with the single-entry timeline and its
resolution with a duration of 200 s. -/
def singleState : MusicPlayerPrivate :=
  resolved "title" "singer" "album" 200
    (play "song.mp3" (LrcFile.decoded singleLyrics) init)

/-- The single-entry state after a seek to ratio 1/100, that is 2000 ms,
before the only entry. -/
def soughtState : MusicPlayerPrivate := setProgress (1 / 100) singleState

/-- The scenario state after `play` of a next track without lyric file. -/
def nextTrackState : MusicPlayerPrivate :=
  play "next.mp3" LrcFile.absent scenarioState

end MusicPlayer

/-! ## The packet step -/

namespace MusicPlayer

theorem lyricStep_cases {s s1 : MusicPlayerPrivate} {t : qreal}
    (h : lyricStep s t = Except.ok s1) :
    (s1 = s ∧ (s.m_hasLyrics = true → ∃ cur, s.m_lyricsModel.entryAt s.m_lyricIndex = some cur ∧
        (lyricPts t > cur.pts → ∃ nxt, s.m_lyricsModel.entryAt s.m_nextIndex = some nxt ∧
          ¬ lyricPts t > nxt.pts))) ∨
    (s1 = advanced s ∧ s.m_hasLyrics = true ∧
      ∃ cur nxt, s.m_lyricsModel.entryAt s.m_lyricIndex = some cur ∧
        s.m_lyricsModel.entryAt s.m_nextIndex = some nxt ∧
        lyricPts t > cur.pts ∧ lyricPts t > nxt.pts) := by
  unfold lyricStep at h
  by_cases hl : s.m_hasLyrics = true
  · rw [if_pos hl] at h
    cases hc : s.m_lyricsModel.entryAt s.m_lyricIndex with
    | none => rw [hc] at h; cases h
    | some cur =>
      rw [hc] at h
      by_cases h1 : lyricPts t > cur.pts
      · simp only [h1, if_true] at h
        cases hn : s.m_lyricsModel.entryAt s.m_nextIndex with
        | none => rw [hn] at h; cases h
        | some nxt =>
          rw [hn] at h
          by_cases h2 : lyricPts t > nxt.pts
          · simp only [h2, if_true] at h
            right
            refine ⟨?_, hl, cur, nxt, rfl, rfl, h1, h2⟩
            cases h; rfl
          · simp only [h2, if_false] at h
            left
            refine ⟨by cases h; rfl, fun _ => ⟨cur, rfl, fun _ => ⟨nxt, rfl, h2⟩⟩⟩
      · simp only [h1, if_false] at h
        left
        exact ⟨by cases h; rfl, fun _ => ⟨cur, rfl, fun h3 => absurd h3 h1⟩⟩
  · rw [if_neg hl] at h
    left
    exact ⟨by cases h; rfl, fun h3 => absurd h3 hl⟩

theorem packetStep_eq {s s2 : MusicPlayerPrivate} {t : qreal}
    (h : packetStep s t = Except.ok s2) :
    ∃ s1, lyricStep s t = Except.ok s1 ∧
      s2 = emit { s1 with m_progress := t / s1.m_duration } Signal.progressChanged := by
  unfold packetStep at h
  cases hl : lyricStep s t with
  | error f => rw [hl] at h; cases h
  | ok s1 => rw [hl] at h; exact ⟨s1, rfl, by cases h; rfl⟩

end MusicPlayer

/-! ## The pull loop -/

namespace MusicPlayer

theorem lyricStep_frame {s s1 : MusicPlayerPrivate} {t : qreal}
    (h : lyricStep s t = Except.ok s1) :
    s1 = { s with m_lyricIndex := s1.m_lyricIndex, m_nextIndex := s1.m_nextIndex,
                  emitted := s1.emitted } ∧ ∃ l, s1.emitted = s.emitted ++ l := by
  rcases lyricStep_cases h with ⟨rfl, _⟩ | ⟨rfl, _⟩
  · exact ⟨rfl, [], by simp⟩
  · exact ⟨rfl, [Signal.lyricIndexChanged], rfl⟩

theorem packetStep_frame {s s2 : MusicPlayerPrivate} {t : qreal}
    (h : packetStep s t = Except.ok s2) :
    s2 = { s with m_progress := s2.m_progress, m_lyricIndex := s2.m_lyricIndex,
                  m_nextIndex := s2.m_nextIndex, emitted := s2.emitted } ∧
      ∃ l, s2.emitted = s.emitted ++ l := by
  obtain ⟨s1, h1, rfl⟩ := packetStep_eq h
  rcases lyricStep_cases h1 with ⟨rfl, _⟩ | ⟨rfl, _⟩
  · exact ⟨rfl, [Signal.progressChanged], rfl⟩
  · exact ⟨rfl, [Signal.lyricIndexChanged, Signal.progressChanged], by simp [emit, advanced]⟩

/-- Induction along the iterations of the pull loop. -/
theorem pullLoop_induct (bytesFree : Int) (src : Nat → AudioPacket)
    (P : Nat → MusicPlayerPrivate → Pulled → Prop)
    (full : ∀ k s, ¬ s.m_audioBuffer.size < bytesFree → P k s ⟨s, k, false⟩)
    (eos : ∀ k s, s.m_audioBuffer.size < bytesFree →
      endOfStream s.m_duration (src k) = true → P k s ⟨finishStream s, k + 1, true⟩)
    (idle : ∀ k s s1, s.m_audioBuffer.size < bytesFree →
      endOfStream s.m_duration (src k) = false →
      packetStep s (src k).time = Except.ok s1 → (src k).data = [] →
      P k s ⟨s1, k + 1, false⟩)
    (more : ∀ k s s1 r, s.m_audioBuffer.size < bytesFree →
      endOfStream s.m_duration (src k) = false →
      packetStep s (src k).time = Except.ok s1 → (src k).data ≠ [] →
      P (k + 1) { s1 with m_audioBuffer := s1.m_audioBuffer ++ (src k).data } r →
      P k s r) :
    ∀ fuel k s r, pullLoop bytesFree src fuel k s = Except.ok r → P k s r := by
  intro fuel
  induction fuel with
  | zero =>
    intro k s r h
    unfold pullLoop at h
    by_cases hlt : s.m_audioBuffer.size < bytesFree
    · rw [if_pos hlt] at h; cases h
    · rw [if_neg hlt] at h; cases h; exact full k s hlt
  | succ fuel ih =>
    intro k s r h
    unfold pullLoop at h
    by_cases hlt : s.m_audioBuffer.size < bytesFree
    · rw [if_pos hlt] at h
      by_cases he : endOfStream s.m_duration (src k) = true
      · simp only [he, if_true] at h
        cases h; exact eos k s hlt he
      · have he2 : endOfStream s.m_duration (src k) = false := by simpa using he
        simp only [he2] at h
        cases hp : packetStep s (src k).time with
        | error f => rw [hp] at h; simp at h
        | ok s1 =>
          rw [hp] at h
          by_cases hd : (src k).data = []
          · simp [hd] at h
            cases h; exact idle k s s1 hlt he2 hp hd
          · have hd2 : (src k).data.isEmpty = false := by
              cases hx : (src k).data with
              | nil => exact absurd hx hd
              | cons a l => rfl
            simp [hd2] at h
            exact more k s s1 r hlt he2 hp hd (ih _ _ _ h)
    · rw [if_neg hlt] at h; cases h; exact full k s hlt

end MusicPlayer

namespace MusicPlayer

theorem endOfStream_iff (duration : qreal) (packet : AudioPacket) :
    endOfStream duration packet = true ↔
      (packet.time ≥ duration ∨ (packet.data = [] ∧ packet.time < 1 / 100000000)) := by
  simp [endOfStream, List.isEmpty_iff]

theorem update_cases {bytesFree periodSize : Int} {src : Nat → AudioPacket}
    {s : MusicPlayerPrivate} {r : Pulled}
    (h : update bytesFree periodSize src s = Except.ok r) :
    s.m_audioOutput = true ∧
    ∃ r0, pullLoop bytesFree src (pullBudget bytesFree s) 0 s = Except.ok r0 ∧
      ((r0.finished = true ∧ r = r0) ∨
       (r0.finished = false ∧ ∃ s1, drain periodSize r0.state = Except.ok s1 ∧
          r = { r0 with state := s1 })) := by
  unfold update at h
  by_cases ho : s.m_audioOutput = true
  · rw [if_pos ho] at h
    refine ⟨ho, ?_⟩
    cases hp : pullLoop bytesFree src (pullBudget bytesFree s) 0 s with
    | error f => rw [hp] at h; cases h
    | ok r0 =>
      rw [hp] at h
      refine ⟨r0, rfl, ?_⟩
      by_cases hf : r0.finished = true
      · simp only [hf, if_true] at h
        left; exact ⟨hf, by cases h; rfl⟩
      · have hf2 : r0.finished = false := by simpa using hf
        simp only [hf2] at h
        right
        refine ⟨hf2, ?_⟩
        cases hd : drain periodSize r0.state with
        | error f => rw [hd] at h; simp at h
        | ok s1 => rw [hd] at h; exact ⟨s1, rfl, by simp at h; rw [← h, hf2]⟩
  · rw [if_neg ho] at h; cases h

theorem pullLoop_duration (bytesFree : Int) (src : Nat → AudioPacket) :
    ∀ fuel k s r, pullLoop bytesFree src fuel k s = Except.ok r →
      r.state.m_duration = s.m_duration := by
  apply pullLoop_induct bytesFree src (fun _ s r => r.state.m_duration = s.m_duration)
  · intro k s _; rfl
  · intro k s _ _; rfl
  · intro k s s1 _ _ hp _
    have := (packetStep_frame hp).1
    rw [this]
  · intro k s s1 r _ _ hp _ ih
    have := (packetStep_frame hp).1
    rw [ih, this]

theorem pullLoop_stops_at_end (bytesFree : Int) (src : Nat → AudioPacket) :
    ∀ fuel k s r, pullLoop bytesFree src fuel k s = Except.ok r →
      ∀ j, k ≤ j → j < r.pulls → endOfStream s.m_duration (src j) = true →
        r.pulls = j + 1 ∧ r.finished = true ∧
        ∃ s1, r.state = finishStream s1 ∧ s1.decoderCalls = s.decoderCalls ∧
          s1.written = s.written ∧ ∃ l, s1.emitted = s.emitted ++ l := by
  apply pullLoop_induct bytesFree src (fun k s r =>
      ∀ j, k ≤ j → j < r.pulls → endOfStream s.m_duration (src j) = true →
        r.pulls = j + 1 ∧ r.finished = true ∧
        ∃ s1, r.state = finishStream s1 ∧ s1.decoderCalls = s.decoderCalls ∧
          s1.written = s.written ∧ ∃ l, s1.emitted = s.emitted ++ l)
  · intro k s _ j hkj hj _
    simp only at hj; omega
  · intro k s _ _ j hkj hj _
    simp only at hj
    have : j = k := by omega
    subst this
    exact ⟨rfl, rfl, s, rfl, rfl, rfl, [], by simp⟩
  · intro k s s1 _ he _ _ j hkj hj hej
    simp only at hj
    have : j = k := by omega
    subst this
    rw [he] at hej; cases hej
  · intro k s s1 r _ he hp _ ih j hkj hj hej
    have hne : j ≠ k := by
      rintro rfl
      rw [he] at hej; cases hej
    obtain ⟨hf, l, hl⟩ := packetStep_frame hp
    have hdur : s1.m_duration = s.m_duration := by rw [hf]
    have hdc : s1.decoderCalls = s.decoderCalls := by rw [hf]
    have hwr : s1.written = s.written := by rw [hf]
    obtain ⟨h1, h2, s2, h3, h4, h5, l2, h6⟩ :=
      ih j (by omega) hj (by simpa [hdur] using hej)
    refine ⟨h1, h2, s2, h3, ?_, ?_, l ++ l2, ?_⟩
    · simpa [hdc] using h4
    · simpa [hwr] using h5
    · simp only at h6
      rw [h6, hl, List.append_assoc]

end MusicPlayer

/-! ## End of stream (C1) -/

/-- C1: if a pump tick pulls, as its packet number `k`, a packet whose time is
at least the duration, or whose data is empty and whose time is below 1e-8,
then that packet is the last one pulled, the tick leaves through the
end-of-stream branch with progress 1, `running` false and the timer stopped,
the only call made on the decoder is `stop`, `finished` is among the signals
emitted during the tick, and nothing was written to the sink. -/
theorem update_ends_at_end_of_stream (bytesFree periodSize : Int)
    (src : Nat → AudioPacket) (s : MusicPlayerPrivate) (r : MusicPlayer.Pulled)
    (h : MusicPlayer.update bytesFree periodSize src s = Except.ok r)
    (k : Nat) (hk : k < r.pulls)
    (he : (src k).time ≥ s.m_duration ∨
      ((src k).data = [] ∧ (src k).time < 1 / 100000000)) :
    r.pulls = k + 1 ∧ r.finished = true ∧
    r.state.m_progress = 1 ∧ r.state.m_running = false ∧
    r.state.m_playTimer = false ∧
    r.state.decoderCalls = s.decoderCalls ++ [DecoderCall.stop] ∧
    Signal.finished ∈ MusicPlayer.emittedSince s r.state ∧
    r.state.written = s.written := by
  obtain ⟨_, r0, hp, hr⟩ := MusicPlayer.update_cases h
  have hpulls : r.pulls = r0.pulls := by
    rcases hr with ⟨_, rfl⟩ | ⟨_, s1, _, rfl⟩ <;> rfl
  obtain ⟨h1, h2, s1, h3, h4, h5, l, h6⟩ :=
    MusicPlayer.pullLoop_stops_at_end bytesFree src _ _ _ _ hp k (Nat.zero_le k)
      (hpulls ▸ hk) ((MusicPlayer.endOfStream_iff _ _).2 he)
  have hr0 : r = r0 := by
    rcases hr with ⟨_, rfl⟩ | ⟨hf, _⟩
    · rfl
    · rw [hf] at h2; cases h2
  subst hr0
  refine ⟨h1, h2, ?_, ?_, ?_, ?_, ?_, ?_⟩
  · rw [h3]; rfl
  · rw [h3]; rfl
  · rw [h3]; rfl
  · rw [h3]; simp [MusicPlayer.finishStream, MusicPlayer.emit, h4]
  · rw [h3]; simp [MusicPlayer.emittedSince, MusicPlayer.finishStream, MusicPlayer.emit, h6]
  · rw [h3]; simp [MusicPlayer.finishStream, MusicPlayer.emit, h5]

theorem update_scenario_ended :
    MusicPlayer.update 4096 1024 MusicPlayer.endedSource MusicPlayer.scenarioState =
      Except.ok ⟨MusicPlayer.finishStream MusicPlayer.scenarioState, 1, true⟩ := by
  simp [MusicPlayer.update, MusicPlayer.pullBudget, MusicPlayer.scenarioState,
    MusicPlayer.resolved, MusicPlayer.play, MusicPlayer.emit, MusicPlayer.setCurMusic,
    MusicPlayer.suspend, MusicPlayer.init, MusicPlayer.pullLoop, QByteArray.size,
    MusicPlayer.endOfStream, MusicPlayer.endedSource, MusicPlayer.scenarioLyrics,
    LyricsModel.count]

/-- The witness of C1: the scenario state ticks on a source that reports the
time 200 s, the duration of the track. -/
theorem update_ends_at_end_of_stream_witness :
    MusicPlayer.update 4096 1024 MusicPlayer.endedSource MusicPlayer.scenarioState =
      Except.ok MusicPlayer.scenarioEnded ∧
    0 < MusicPlayer.scenarioEnded.pulls ∧
    (MusicPlayer.endedSource 0).time ≥ MusicPlayer.scenarioState.m_duration ∧
    (MusicPlayer.scenarioEnded.pulls = 0 + 1 ∧ MusicPlayer.scenarioEnded.finished = true ∧
      MusicPlayer.scenarioEnded.state.m_progress = 1 ∧
      MusicPlayer.scenarioEnded.state.m_running = false ∧
      MusicPlayer.scenarioEnded.state.m_playTimer = false ∧
      MusicPlayer.scenarioEnded.state.decoderCalls =
        MusicPlayer.scenarioState.decoderCalls ++ [DecoderCall.stop] ∧
      Signal.finished ∈
        MusicPlayer.emittedSince MusicPlayer.scenarioState MusicPlayer.scenarioEnded.state ∧
      MusicPlayer.scenarioEnded.state.written = MusicPlayer.scenarioState.written) :=
  ⟨update_scenario_ended, by decide, le_refl (200 : ℚ),
    update_ends_at_end_of_stream 4096 1024 MusicPlayer.endedSource
      MusicPlayer.scenarioState MusicPlayer.scenarioEnded update_scenario_ended 0
      (by decide) (Or.inl (le_refl (200 : ℚ)))⟩

/-! ## The staged buffer after the pull loop (C8) -/

namespace MusicPlayer

theorem pulledData_succ (src : Nat → AudioPacket) (n : Nat) :
    pulledData src (n + 1) = pulledData src n ++ (src n).data := by
  simp [pulledData, List.range_succ]

theorem pullLoop_buffer (bytesFree : Int) (src : Nat → AudioPacket) :
    ∀ fuel k s r, pullLoop bytesFree src fuel k s = Except.ok r →
      r.finished = false →
        (∃ x, r.state.m_audioBuffer = s.m_audioBuffer ++ x ∧
          pulledData src r.pulls = pulledData src k ++ x) ∧
        ∀ j, k ≤ j → j < r.pulls → (src j).data = [] → r.pulls = j + 1 := by
  apply pullLoop_induct bytesFree src (fun k s r => r.finished = false →
        (∃ x, r.state.m_audioBuffer = s.m_audioBuffer ++ x ∧
          pulledData src r.pulls = pulledData src k ++ x) ∧
        ∀ j, k ≤ j → j < r.pulls → (src j).data = [] → r.pulls = j + 1)
  · intro k s _ _
    refine ⟨⟨[], by simp, by simp⟩, ?_⟩
    intro j hkj hj _
    have hj2 : j < k := hj
    omega
  · intro k s _ _ hf
    cases hf
  · intro k s s1 _ _ hp hd _
    have hb : s1.m_audioBuffer = s.m_audioBuffer := by rw [(packetStep_frame hp).1]
    refine ⟨⟨[], by simp [hb], by simp [pulledData_succ, hd]⟩, ?_⟩
    intro j hkj hj _
    have hj2 : j < k + 1 := hj
    show k + 1 = j + 1
    omega
  · intro k s s1 r _ _ hp hd ih hf
    have hb : s1.m_audioBuffer = s.m_audioBuffer := by rw [(packetStep_frame hp).1]
    obtain ⟨⟨x, hx1, hx2⟩, hx3⟩ := ih hf
    refine ⟨⟨(src k).data ++ x, ?_, ?_⟩, ?_⟩
    · rw [hx1, hb, List.append_assoc]
    · rw [hx2, pulledData_succ, List.append_assoc]
    · intro j hkj hj hdj
      have hne : j ≠ k := by
        rintro rfl
        exact hd hdj
      exact hx3 j (by omega) hj hdj

end MusicPlayer

/-- C8: when the pull loop of a tick is left without end of stream, the
staged buffer is the buffer before the tick followed by the data of the
packets pulled, in pull order; and a pulled packet with empty data is the
last one pulled, with everything staged before it still in place. -/
theorem pullLoop_stages_pulled_data (bytesFree : Int) (src : Nat → AudioPacket)
    (s : MusicPlayerPrivate) (r : MusicPlayer.Pulled)
    (h : MusicPlayer.pullLoop bytesFree src (MusicPlayer.pullBudget bytesFree s) 0 s =
      Except.ok r)
    (hf : r.finished = false) :
    r.state.m_audioBuffer = s.m_audioBuffer ++ MusicPlayer.pulledData src r.pulls ∧
    ∀ k, k < r.pulls → (src k).data = [] →
      r.pulls = k + 1 ∧
      r.state.m_audioBuffer = s.m_audioBuffer ++ MusicPlayer.pulledData src k := by
  obtain ⟨⟨x, hx1, hx2⟩, hx3⟩ := MusicPlayer.pullLoop_buffer bytesFree src _ _ _ _ h hf
  have hx : MusicPlayer.pulledData src r.pulls = x := by
    rw [hx2]; simp [MusicPlayer.pulledData]
  refine ⟨by rw [hx1, hx], ?_⟩
  intro k hk hd
  have hp := hx3 k (Nat.zero_le k) hk hd
  refine ⟨hp, ?_⟩
  rw [hx1, ← hx, hp, MusicPlayer.pulledData_succ, hd, List.append_nil]

theorem pullLoop_staged_example :
    MusicPlayer.pullLoop 8 MusicPlayer.stallingSource
      (MusicPlayer.pullBudget 8 MusicPlayer.stagedState) 0 MusicPlayer.stagedState =
      Except.ok MusicPlayer.stagedPulled := by
  norm_num [MusicPlayer.pullBudget, MusicPlayer.stagedState, MusicPlayer.stagedPulled,
    MusicPlayer.init, MusicPlayer.pullLoop, QByteArray.size, MusicPlayer.endOfStream,
    MusicPlayer.stallingSource, MusicPlayer.packetStep, MusicPlayer.lyricStep,
    MusicPlayer.emit]

/-- The witness of C8: one staged byte, a packet of three bytes, then a packet
without data that is not the end of the stream. -/
theorem pullLoop_stages_pulled_data_witness :
    MusicPlayer.pullLoop 8 MusicPlayer.stallingSource
      (MusicPlayer.pullBudget 8 MusicPlayer.stagedState) 0 MusicPlayer.stagedState =
      Except.ok MusicPlayer.stagedPulled ∧
    MusicPlayer.stagedPulled.finished = false ∧
    (MusicPlayer.stagedPulled.state.m_audioBuffer =
        MusicPlayer.stagedState.m_audioBuffer ++
          MusicPlayer.pulledData MusicPlayer.stallingSource MusicPlayer.stagedPulled.pulls ∧
      ∀ k, k < MusicPlayer.stagedPulled.pulls → (MusicPlayer.stallingSource k).data = [] →
        MusicPlayer.stagedPulled.pulls = k + 1 ∧
        MusicPlayer.stagedPulled.state.m_audioBuffer =
          MusicPlayer.stagedState.m_audioBuffer ++
            MusicPlayer.pulledData MusicPlayer.stallingSource k) :=
  ⟨pullLoop_staged_example, rfl,
    pullLoop_stages_pulled_data 8 MusicPlayer.stallingSource MusicPlayer.stagedState
      MusicPlayer.stagedPulled pullLoop_staged_example rfl⟩

/-! ## The drain loop (C2) -/

namespace MusicPlayer

theorem slices_succ (q : Nat) (b : QByteArray) (n : Nat) :
    slices q b (n + 1) = b.take q :: slices q (b.drop q) n := by
  simp only [slices, List.range_succ_eq_map, List.map_cons, List.map_map]
  refine congrArg₂ _ (by simp) (List.map_congr_left ?_)
  intro i _
  simp only [Function.comp, List.drop_drop, Nat.succ_eq_add_one]
  rw [show q + i * q = (i + 1) * q by ring]

theorem slices_length (q : Nat) (b : QByteArray) (n : Nat) : (slices q b n).length = n := by
  simp [slices]

theorem slices_flatten (q : Nat) : ∀ (n : Nat) (b : QByteArray),
    (slices q b n).flatten ++ b.drop (n * q) = b := by
  intro n
  induction n with
  | zero => intro b; simp [slices]
  | succ n ih =>
    intro b
    rw [slices_succ, List.flatten_cons, List.append_assoc]
    have h := ih (b.drop q)
    rw [List.drop_drop] at h
    rw [show (n + 1) * q = q + n * q by ring, h, List.take_append_drop]

theorem slices_size (q : Nat) (b : QByteArray) (n : Nat) (hn : n * q ≤ b.length) :
    ∀ c ∈ slices q b n, c.length = q := by
  intro c hc
  simp only [slices, List.mem_map, List.mem_range] at hc
  obtain ⟨i, hi, rfl⟩ := hc
  rw [List.length_take, List.length_drop]
  have : (i + 1) * q ≤ n * q := Nat.mul_le_mul_right q hi
  have h2 : (i + 1) * q = i * q + q := by ring
  omega

theorem drainLoop_whole (q : Nat) (hq : 0 < q) : ∀ (n : Nat) (b : QByteArray)
    (out : List QByteArray), n * q ≤ b.length →
    drainLoop (q : Int) n b out = (b.drop (n * q), out ++ slices q b n) := by
  intro n
  induction n with
  | zero => intro b out _; simp [drainLoop, slices]
  | succ n ih =>
    intro b out hn
    have hlen : q ≤ b.length := by
      have : (n + 1) * q = n * q + q := by ring
      omega
    have hmid : QByteArray.mid b 0 (q : Int) = b.take q := by
      have : ¬ ((q : Int) < 0) := by omega
      simp [QByteArray.mid, this]
    have hsize : QByteArray.size (b.take q) = (q : Int) := by
      simp [QByteArray.size, List.length_take, hlen]
    have hrem : QByteArray.remove b 0 (q : Int) = b.drop q := by
      simp [QByteArray.remove]
    have hq0 : (q : Int) ≠ 0 := by omega
    have hn2 : n * q ≤ (b.drop q).length := by
      rw [List.length_drop]
      have : (n + 1) * q = n * q + q := by ring
      omega
    unfold drainLoop
    simp only [hmid, hsize, hrem, hq0, ne_eq, not_false_eq_true, not_true_eq_false,
      if_true, if_false]
    rw [ih (b.drop q) _ hn2, slices_succ, List.drop_drop]
    rw [show q + n * q = (n + 1) * q by ring]
    simp

theorem drain_whole (q : Nat) (hq : 0 < q) (s : MusicPlayerPrivate) :
    drain (q : Int) s = Except.ok
      { s with m_audioBuffer := s.m_audioBuffer.drop (s.m_audioBuffer.length / q * q),
               written := s.written ++ slices q s.m_audioBuffer (s.m_audioBuffer.length / q) } := by
  have hq0 : (q : Int) ≠ 0 := by omega
  have hch : Int.tdiv (QByteArray.size s.m_audioBuffer) (q : Int) =
      ((s.m_audioBuffer.length / q : Nat) : Int) := rfl
  have hneg : ¬ (((s.m_audioBuffer.length / q : Nat) : Int) < 0) :=
    not_lt.2 (Int.ofNat_nonneg _)
  unfold drain
  simp only [hq0, if_false, hch, hneg, Int.toNat_natCast]
  rw [drainLoop_whole q hq _ _ _ (Nat.div_mul_le_self _ _)]
  simp

end MusicPlayer

/-- C2: for a positive period size `p` and `n` staged bytes, the drain phase
of a tick writes `n / p` chunks, each of `p` bytes, the `i`-th being the `p`
bytes of the staged buffer from position `i * p`, and leaves `n mod p` bytes
staged, fewer than `p`; the chunks followed by what stays staged are the buffer
before the drain. A tick that does not end in end of stream therefore leaves
fewer than `p` bytes staged. -/
theorem drain_writes_whole_periods (periodSize : Int) (hp : 0 < periodSize)
    (s : MusicPlayerPrivate) :
    (∃ s1 chunks, MusicPlayer.drain periodSize s = Except.ok s1 ∧
      s1.written = s.written ++ chunks ∧
      (chunks.length : Int) = s.m_audioBuffer.size / periodSize ∧
      (∀ c ∈ chunks, QByteArray.size c = periodSize) ∧
      (∀ i : Nat, i < chunks.length →
        chunks.get? i = some (s.m_audioBuffer.mid (i * periodSize) periodSize)) ∧
      s1.m_audioBuffer.size = s.m_audioBuffer.size % periodSize ∧
      s1.m_audioBuffer.size < periodSize ∧
      chunks.flatten ++ s1.m_audioBuffer = s.m_audioBuffer) ∧
    (∀ (bytesFree : Int) (src : Nat → AudioPacket) (r : MusicPlayer.Pulled),
      MusicPlayer.update bytesFree periodSize src s = Except.ok r → r.finished = false →
      r.state.m_audioBuffer.size < periodSize) := by
  lift periodSize to ℕ using hp.le with q
  have hq : 0 < q := by exact_mod_cast hp
  have key : ∀ b : QByteArray,
      QByteArray.size (b.drop (b.length / q * q)) = QByteArray.size b % (q : Int) ∧
      QByteArray.size (b.drop (b.length / q * q)) < (q : Int) := by
    intro b
    have h1 : b.length / q * q + b.length % q = b.length := Nat.div_add_mod' _ _
    have h2 : b.length % q < q := Nat.mod_lt _ hq
    have h3 : (b.drop (b.length / q * q)).length = b.length % q := by
      rw [List.length_drop]; omega
    simp only [QByteArray.size, h3]
    exact ⟨Int.natCast_mod _ _, by exact_mod_cast h2⟩
  constructor
  · refine ⟨_, MusicPlayer.slices q s.m_audioBuffer (s.m_audioBuffer.length / q),
      MusicPlayer.drain_whole q hq s, rfl, ?_, ?_, ?_, (key _).1, (key _).2, ?_⟩
    · rw [MusicPlayer.slices_length]
      exact Int.natCast_div _ _
    · intro c hc
      have := MusicPlayer.slices_size q s.m_audioBuffer _ (Nat.div_mul_le_self _ _) c hc
      simp [QByteArray.size, this]
    · intro i hi
      rw [MusicPlayer.slices_length] at hi
      have hneg : ¬ ((q : Int) < 0) := by omega
      have hpos : ((i : Int) * (q : Int)).toNat = i * q := by
        rw [← Nat.cast_mul, Int.toNat_natCast]
      simp [MusicPlayer.slices, QByteArray.mid, hneg, hpos, List.getElem?_map,
        List.getElem?_range hi]
    · exact MusicPlayer.slices_flatten q _ _
  · intro bytesFree src r h hf
    obtain ⟨_, r0, _, hr⟩ := MusicPlayer.update_cases h
    rcases hr with ⟨hf0, rfl⟩ | ⟨_, s1, hd, rfl⟩
    · rw [hf] at hf0; cases hf0
    · rw [MusicPlayer.drain_whole q hq] at hd
      cases hd
      exact (key _).2

/-- The witness of C2: 3000 staged bytes and a period of 1024 bytes give two
chunks written and 952 bytes left staged. -/
theorem drain_writes_whole_periods_witness :
    (0 : Int) < 1024 ∧
    ∃ s1 chunks, MusicPlayer.drain 1024 MusicPlayer.drainScenario = Except.ok s1 ∧
      s1.written = MusicPlayer.drainScenario.written ++ chunks ∧
      chunks.length = 2 ∧ (∀ c ∈ chunks, QByteArray.size c = 1024) ∧
      s1.m_audioBuffer.size = 952 ∧
      chunks.flatten ++ s1.m_audioBuffer = MusicPlayer.drainScenario.m_audioBuffer := by
  refine ⟨by decide, ?_⟩
  obtain ⟨⟨s1, chunks, h1, h2, h3, h4, _, h6, _, h8⟩, _⟩ :=
    drain_writes_whole_periods 1024 (by decide) MusicPlayer.drainScenario
  have hsize : QByteArray.size MusicPlayer.drainScenario.m_audioBuffer = 3000 := by
    show ((List.replicate 3000 (0 : UInt8)).length : Int) = 3000
    rw [List.length_replicate]
    rfl
  rw [hsize] at h3 h6
  exact ⟨s1, chunks, h1, h2, by omega, h4, by omega, h8⟩

/-! ## Seeking (C3) -/

namespace MusicPlayer

theorem qAbs_eq_abs (t : qreal) : qAbs t = |t| := by
  unfold qAbs
  split
  · rename_i h; exact (abs_of_nonneg h).symm
  · rename_i h; exact (abs_of_neg (not_le.1 h)).symm

theorem seekAccepted_iff (s : MusicPlayerPrivate) (ratio : qreal) :
    seekAccepted s ratio = true ↔
      ¬ (s.m_running = false ∨ |ratio - s.m_progress| ≤ 1 / 1000000) := by
  simp [seekAccepted, qAbs_eq_abs]

theorem seekLyrics_cases (s : MusicPlayerPrivate) (ratio : qreal) :
    (seekLyrics s ratio = s ∧ (s.m_hasLyrics = true →
        firstAfter (seekPts ratio s.m_duration) s.m_lyricsModel 0 = none)) ∨
    (s.m_hasLyrics = true ∧ ∃ i,
        firstAfter (seekPts ratio s.m_duration) s.m_lyricsModel 0 = some i ∧
        seekLyrics s ratio = synced s i) := by
  by_cases hl : s.m_hasLyrics = true
  · cases hfa : firstAfter (seekPts ratio s.m_duration) s.m_lyricsModel 0 with
    | none =>
      left
      refine ⟨?_, fun _ => rfl⟩
      rw [seekLyrics, if_pos hl]
      simp only [hfa]
    | some i =>
      right
      refine ⟨hl, i, rfl, ?_⟩
      rw [seekLyrics, if_pos hl]
      simp only [hfa]
      rfl
  · left
    refine ⟨?_, fun h => absurd h hl⟩
    rw [seekLyrics, if_neg hl]

theorem seekLyrics_frame (s : MusicPlayerPrivate) (ratio : qreal) :
    seekLyrics s ratio =
      { s with m_lyricIndex := (seekLyrics s ratio).m_lyricIndex,
               m_nextIndex := (seekLyrics s ratio).m_nextIndex,
               emitted := (seekLyrics s ratio).emitted } := by
  rcases seekLyrics_cases s ratio with ⟨h, _⟩ | ⟨_, i, _, h⟩
  · rw [h]
  · rw [h]; rfl

theorem mid_append_remove (b : QByteArray) (readSize : Int) :
    b.mid 0 readSize ++ b.remove 0 (b.mid 0 readSize).size = b := by
  unfold QByteArray.mid QByteArray.remove QByteArray.size
  by_cases h : readSize < 0
  · simp [h]
  · simp only [h, if_false, Int.toNat_zero, List.drop_zero, List.take_zero, List.nil_append,
      Nat.zero_add, Int.toNat_natCast, List.length_take]
    by_cases hk : readSize.toNat ≤ b.length
    · rw [Nat.min_eq_left hk, List.take_append_drop]
    · have hk2 : b.length ≤ readSize.toNat := by omega
      rw [Nat.min_eq_right hk2, List.take_of_length_le hk2, List.drop_length, List.append_nil]

theorem drainLoop_conserves (readSize : Int) : ∀ (n : Nat) (b : QByteArray)
    (out : List QByteArray),
    ∃ chunks, (drainLoop readSize n b out).2 = out ++ chunks ∧
      chunks.flatten ++ (drainLoop readSize n b out).1 = b := by
  intro n
  induction n with
  | zero => intro b out; exact ⟨[], by simp [drainLoop], by simp [drainLoop]⟩
  | succ n ih =>
    intro b out
    have hcons := mid_append_remove b readSize
    have hout : ∃ c1, (if (b.mid 0 readSize).size ≠ 0 then out ++ [b.mid 0 readSize] else out) =
        out ++ c1 ∧ c1.flatten = b.mid 0 readSize := by
      by_cases hz : (b.mid 0 readSize).size ≠ 0
      · exact ⟨[b.mid 0 readSize], by simp [hz], by simp⟩
      · refine ⟨[], by simp [hz], ?_⟩
        have : (b.mid 0 readSize).length = 0 := by
          simpa [QByteArray.size] using hz
        simp [List.length_eq_zero.1 this]
    obtain ⟨c1, hc1, hc2⟩ := hout
    unfold drainLoop
    simp only [hc1]
    by_cases hne : (b.mid 0 readSize).size ≠ readSize
    · rw [if_pos hne]
      exact ⟨c1, rfl, by rw [hc2]; exact hcons⟩
    · rw [if_neg hne]
      obtain ⟨c2, hc3, hc4⟩ := ih (b.remove 0 (b.mid 0 readSize).size) (out ++ c1)
      refine ⟨c1 ++ c2, by rw [hc3, List.append_assoc], ?_⟩
      rw [List.flatten_append, List.append_assoc, hc4, hc2]
      exact hcons

theorem drain_conserves {readSize : Int} {s s1 : MusicPlayerPrivate}
    (h : drain readSize s = Except.ok s1) :
    s1 = { s with m_audioBuffer := s1.m_audioBuffer, written := s1.written } ∧
    ∃ chunks, s1.written = s.written ++ chunks ∧
      chunks.flatten ++ s1.m_audioBuffer = s.m_audioBuffer := by
  unfold drain at h
  by_cases hz : readSize = 0
  · rw [if_pos hz] at h; cases h
  · rw [if_neg hz] at h
    simp only [Except.ok.injEq] at h
    subst h
    obtain ⟨chunks, hc1, hc2⟩ := drainLoop_conserves readSize
      (if Int.tdiv s.m_audioBuffer.size readSize < 0 then 1
        else (Int.tdiv s.m_audioBuffer.size readSize).toNat) s.m_audioBuffer []
    refine ⟨rfl, chunks, ?_, hc2⟩
    simp only [hc1, List.nil_append]

theorem pullLoop_written (bytesFree : Int) (src : Nat → AudioPacket) :
    ∀ fuel k s r, pullLoop bytesFree src fuel k s = Except.ok r →
      r.state.written = s.written := by
  apply pullLoop_induct bytesFree src (fun _ s r => r.state.written = s.written)
  · intro k s _; rfl
  · intro k s _ _; rfl
  · intro k s s1 _ _ hp _
    have := (packetStep_frame hp).1
    rw [this]
  · intro k s s1 r _ _ hp _ ih
    have := (packetStep_frame hp).1
    rw [ih, this]

end MusicPlayer

namespace MusicPlayer

theorem setProgress_accepted {s : MusicPlayerPrivate} {ratio : qreal}
    (h : seekAccepted s ratio = true) :
    (setProgress ratio s).m_progress = ratio ∧
    (setProgress ratio s).m_audioBuffer = [] ∧
    (setProgress ratio s).decoderCalls = s.decoderCalls ++ [DecoderCall.setProgress ratio] ∧
    (setProgress ratio s).written = s.written := by
  rw [setProgress, if_pos h]
  simp only
  rw [seekLyrics_frame]
  exact ⟨rfl, rfl, rfl, rfl⟩

theorem update_writes_pulled_bytes {bytesFree periodSize : Int} {src : Nat → AudioPacket}
    {s : MusicPlayerPrivate} {r : Pulled} (hb : s.m_audioBuffer = [])
    (h : update bytesFree periodSize src s = Except.ok r) :
    ∃ chunks rest, r.state.written = s.written ++ chunks ∧
      chunks.flatten ++ rest = pulledData src r.pulls := by
  obtain ⟨_, r0, hp, hr⟩ := update_cases h
  have hw := pullLoop_written bytesFree src _ _ _ _ hp
  rcases hr with ⟨_, rfl⟩ | ⟨hf, s1, hd, rfl⟩
  · exact ⟨[], pulledData src r.pulls, by simp [hw], by simp⟩
  · obtain ⟨⟨x, hx1, hx2⟩, _⟩ := pullLoop_buffer bytesFree src _ _ _ _ hp hf
    obtain ⟨_, chunks, hc1, hc2⟩ := drain_conserves hd
    refine ⟨chunks, s1.m_audioBuffer, by simp only [hc1, hw], ?_⟩
    show chunks.flatten ++ s1.m_audioBuffer = pulledData src r0.pulls
    rw [hc2, hx1, hx2, hb]
    simp [pulledData]

end MusicPlayer

/-- C3: `setProgress(ratio)` leaves the whole state, the history of decoder
calls included, unchanged when `running` is false or the distance between
`ratio` and the progress is at most 1e-6. Otherwise the progress becomes
`ratio`, the staged buffer becomes empty, and `ratio` is forwarded to the
decoder; the bytes a following tick writes are then taken from the packets
pulled in that tick, in order, and from nothing staged earlier. -/
theorem setProgress_accepts_or_ignores (ratio : qreal) (s : MusicPlayerPrivate) :
    ((s.m_running = false ∨ |ratio - s.m_progress| ≤ 1 / 1000000) →
      MusicPlayer.setProgress ratio s = s) ∧
    (¬ (s.m_running = false ∨ |ratio - s.m_progress| ≤ 1 / 1000000) →
      (MusicPlayer.setProgress ratio s).m_progress = ratio ∧
      (MusicPlayer.setProgress ratio s).m_audioBuffer = [] ∧
      (MusicPlayer.setProgress ratio s).decoderCalls =
        s.decoderCalls ++ [DecoderCall.setProgress ratio] ∧
      ∀ (bytesFree periodSize : Int) (src : Nat → AudioPacket) (r : MusicPlayer.Pulled),
        MusicPlayer.update bytesFree periodSize src (MusicPlayer.setProgress ratio s) =
          Except.ok r →
        ∃ chunks rest, r.state.written = s.written ++ chunks ∧
          chunks.flatten ++ rest = MusicPlayer.pulledData src r.pulls) := by
  constructor
  · intro h
    have hn : ¬ (MusicPlayer.seekAccepted s ratio = true) := by
      rw [MusicPlayer.seekAccepted_iff]
      exact not_not.2 h
    rw [MusicPlayer.setProgress, if_neg hn]
  · intro h
    have ha := (MusicPlayer.seekAccepted_iff s ratio).2 h
    obtain ⟨h1, h2, h3, h4⟩ := MusicPlayer.setProgress_accepted ha
    refine ⟨h1, h2, h3, ?_⟩
    intro bytesFree periodSize src r hu
    have := MusicPlayer.update_writes_pulled_bytes h2 hu
    rwa [h4] at this

/-! ## Rounded products and the position of a seek -/

theorem roundHalfEven_of_near (y : ℚ) (n : Int) (h : |y - n| < 1 / 2) :
    roundHalfEven y = n := by
  rw [abs_lt] at h
  obtain ⟨h1, h2⟩ := h
  have hf1 : (⌊y⌋ : ℚ) ≤ y := Int.floor_le y
  have hf2 : y < ⌊y⌋ + 1 := Int.lt_floor_add_one y
  by_cases hny : (n : ℚ) ≤ y
  · have hle : n ≤ ⌊y⌋ := Int.le_floor.2 hny
    have hge : ⌊y⌋ ≤ n := by
      have : (⌊y⌋ : ℚ) < n + 1 := by linarith
      have : ⌊y⌋ < n + 1 := by exact_mod_cast this
      omega
    have heq : ⌊y⌋ = n := le_antisymm hge hle
    unfold roundHalfEven
    rw [heq, if_pos (by linarith)]
  · have hlt : y < n := not_le.1 hny
    have h3 : ⌊y⌋ < n := by
      have : (⌊y⌋ : ℚ) < n := lt_of_le_of_lt hf1 hlt
      exact_mod_cast this
    have h4 : n < ⌊y⌋ + 2 := by
      have : (n : ℚ) < ⌊y⌋ + 2 := by linarith
      exact_mod_cast this
    have heq : ⌊y⌋ + 1 = n := by omega
    have hcast : (n : ℚ) = ⌊y⌋ + 1 := by rw [← heq]; push_cast; ring
    unfold roundHalfEven
    rw [if_neg (by rw [hcast] at h1; linarith), if_pos (by rw [hcast] at h1; linarith), heq]

theorem doubleQuantum_eq (x : ℚ) (e : Int) (h1 : (2 : ℚ) ^ e ≤ |x|)
    (h2 : |x| < (2 : ℚ) ^ (e + 1)) (hmin : -1022 ≤ e) :
    doubleQuantum x = (2 : ℚ) ^ (e - 52) := by
  have hpos : 0 < |x| := lt_of_lt_of_le (zpow_pos (by norm_num) e) h1
  have hl1 : e ≤ Int.log 2 |x| :=
    (Int.zpow_le_iff_le_log (by norm_num) hpos).1 (by exact_mod_cast h1)
  have hl2 : Int.log 2 |x| < e + 1 :=
    (Int.lt_zpow_iff_log_lt (by norm_num) hpos).1 (by exact_mod_cast h2)
  have hl : Int.log 2 |x| = e := by omega
  unfold doubleQuantum
  rw [hl, max_eq_left hmin]

theorem roundDouble_eq (x : ℚ) (e n : Int) (h1 : (2 : ℚ) ^ e ≤ |x|)
    (h2 : |x| < (2 : ℚ) ^ (e + 1)) (hmin : -1022 ≤ e)
    (hn : |x / (2 : ℚ) ^ (e - 52) - n| < 1 / 2) :
    roundDouble x = n * (2 : ℚ) ^ (e - 52) := by
  unfold roundDouble
  rw [doubleQuantum_eq x e h1 h2 hmin, roundHalfEven_of_near _ n hn]

theorem roundDouble_half : roundDouble (1 / 2) = (1 / 2) := by
  rw [roundDouble_eq (1 / 2) (-1) 4503599627370496 (by norm_num [abs_of_pos])
    (by norm_num [abs_of_pos]) (by norm_num) (by norm_num [abs_lt])]
  norm_num

theorem roundDouble_two_hundred : roundDouble 200 = 200 := by
  rw [roundDouble_eq 200 7 7036874417766400 (by norm_num [abs_of_pos])
    (by norm_num [abs_of_pos]) (by norm_num) (by norm_num [abs_lt])]
  norm_num

theorem roundDouble_thousand : roundDouble 1000 = 1000 := by
  rw [roundDouble_eq 1000 9 8796093022208000 (by norm_num [abs_of_pos])
    (by norm_num [abs_of_pos]) (by norm_num) (by norm_num [abs_lt])]
  norm_num

theorem roundDouble_hundred : roundDouble 100 = 100 := by
  rw [roundDouble_eq 100 6 7036874417766400 (by norm_num [abs_of_pos])
    (by norm_num [abs_of_pos]) (by norm_num) (by norm_num [abs_lt])]
  norm_num

theorem roundDouble_hundred_thousand : roundDouble 100000 = 100000 := by
  rw [roundDouble_eq 100000 16 6871947673600000 (by norm_num [abs_of_pos])
    (by norm_num [abs_of_pos]) (by norm_num) (by norm_num [abs_lt])]
  norm_num

theorem roundDouble_three_hundredths :
    roundDouble (3 / 100) = (1080863910568919 / 36028797018963968) := by
  rw [roundDouble_eq (3 / 100) (-6) 8646911284551352 (by norm_num [abs_of_pos])
    (by norm_num [abs_of_pos]) (by norm_num) (by norm_num [abs_lt])]
  norm_num

theorem roundDouble_six_product : roundDouble (27021597764222975 / 4503599627370496) = 6 := by
  rw [roundDouble_eq (27021597764222975 / 4503599627370496) 2 6755399441055744 (by norm_num [abs_of_pos])
    (by norm_num [abs_of_pos]) (by norm_num) (by norm_num [abs_lt])]
  norm_num

theorem roundDouble_six : roundDouble 6 = 6 := by
  rw [roundDouble_eq 6 2 6755399441055744 (by norm_num [abs_of_pos])
    (by norm_num [abs_of_pos]) (by norm_num) (by norm_num [abs_lt])]
  norm_num

theorem roundDouble_six_thousand : roundDouble 6000 = 6000 := by
  rw [roundDouble_eq 6000 12 6597069766656000 (by norm_num [abs_of_pos])
    (by norm_num [abs_of_pos]) (by norm_num) (by norm_num [abs_lt])]
  norm_num

theorem roundDouble_one_hundredth :
    roundDouble (1 / 100) = (5764607523034235 / 576460752303423488) := by
  rw [roundDouble_eq (1 / 100) (-7) 5764607523034235 (by norm_num [abs_of_pos])
    (by norm_num [abs_of_pos]) (by norm_num) (by norm_num [abs_lt])]
  norm_num

theorem roundDouble_two_product :
    roundDouble (144115188075855875 / 72057594037927936) = 2 := by
  rw [roundDouble_eq (144115188075855875 / 72057594037927936) 1 4503599627370496 (by norm_num [abs_of_pos])
    (by norm_num [abs_of_pos]) (by norm_num) (by norm_num [abs_lt])]
  norm_num

theorem roundDouble_two : roundDouble 2 = 2 := by
  rw [roundDouble_eq 2 1 4503599627370496 (by norm_num [abs_of_pos])
    (by norm_num [abs_of_pos]) (by norm_num) (by norm_num [abs_lt])]
  norm_num

theorem roundDouble_two_thousand : roundDouble 2000 = 2000 := by
  rw [roundDouble_eq 2000 10 8796093022208000 (by norm_num [abs_of_pos])
    (by norm_num [abs_of_pos]) (by norm_num) (by norm_num [abs_lt])]
  norm_num

namespace MusicPlayer

theorem seekPts_half_of_200 : seekPts (1 / 2) 200 = 100000 := by
  unfold seekPts mulDouble
  rw [roundDouble_half, roundDouble_two_hundred, show (1 / 2 : ℚ) * 200 = 100 by norm_num,
    roundDouble_hundred, roundDouble_hundred, roundDouble_thousand,
    show (100 : ℚ) * 1000 = 100000 by norm_num, roundDouble_hundred_thousand]
  norm_num [toInt64]

/-- The seek to 0.03 of 200 s: the `double` nearest to 0.03 is below 0.03, the
first product rounds to 6 and the position is 6000 ms. -/
theorem seekPts_three_hundredths_of_200 : seekPts (3 / 100) 200 = 6000 := by
  unfold seekPts mulDouble
  rw [roundDouble_three_hundredths, roundDouble_two_hundred,
    show (1080863910568919 / 36028797018963968 : ℚ) * 200 =
      27021597764222975 / 4503599627370496 by norm_num,
    roundDouble_six_product, roundDouble_six, roundDouble_thousand,
    show (6 : ℚ) * 1000 = 6000 by norm_num, roundDouble_six_thousand]
  norm_num [toInt64]

theorem seekPts_one_hundredth_of_200 : seekPts (1 / 100) 200 = 2000 := by
  unfold seekPts mulDouble
  rw [roundDouble_one_hundredth, roundDouble_two_hundred,
    show (5764607523034235 / 576460752303423488 : ℚ) * 200 =
      144115188075855875 / 72057594037927936 by norm_num,
    roundDouble_two_product, roundDouble_two, roundDouble_thousand,
    show (2 : ℚ) * 1000 = 2000 by norm_num, roundDouble_two_thousand]
  norm_num [toInt64]

end MusicPlayer

theorem roundDouble_nine_thousandths :
    roundDouble (9 / 1000) = (5188146770730811 / 576460752303423488) := by
  rw [roundDouble_eq (9 / 1000) (-7) 5188146770730811
    (by norm_num [abs_of_pos]) (by norm_num [abs_of_pos]) (by norm_num)
    (by norm_num [abs_lt])]
  norm_num

theorem roundDouble_nine_product :
    roundDouble (129703669268270275 / 72057594037927936) = (2026619832316723 / 1125899906842624) := by
  rw [roundDouble_eq (129703669268270275 / 72057594037927936) 0 8106479329266892
    (by norm_num [abs_of_pos]) (by norm_num [abs_of_pos]) (by norm_num)
    (by norm_num [abs_lt])]
  norm_num

theorem roundDouble_nine_product_fixed :
    roundDouble (2026619832316723 / 1125899906842624) = (2026619832316723 / 1125899906842624) := by
  rw [roundDouble_eq (2026619832316723 / 1125899906842624) 0 8106479329266892
    (by norm_num [abs_of_pos]) (by norm_num [abs_of_pos]) (by norm_num)
    (by norm_num [abs_lt])]
  norm_num

theorem roundDouble_nine_millis :
    roundDouble (253327479039590375 / 140737488355328) = (7916483719987199 / 4398046511104) := by
  rw [roundDouble_eq (253327479039590375 / 140737488355328) 10 7916483719987199
    (by norm_num [abs_of_pos]) (by norm_num [abs_of_pos]) (by norm_num)
    (by norm_num [abs_lt])]
  norm_num

namespace MusicPlayer

/-- The seek to 0.009 of 200 s: both products round below the exact values
1.8 and 1800, and the position is 1799 ms. -/
theorem seekPts_nine_thousandths_of_200 : seekPts (9 / 1000) 200 = 1799 := by
  unfold seekPts mulDouble
  rw [roundDouble_nine_thousandths, roundDouble_two_hundred,
    show ((5188146770730811 / 576460752303423488) : ℚ) * 200 =
      (129703669268270275 / 72057594037927936) by norm_num,
    roundDouble_nine_product, roundDouble_nine_product_fixed, roundDouble_thousand,
    show ((2026619832316723 / 1125899906842624) : ℚ) * 1000 =
      (253327479039590375 / 140737488355328) by norm_num,
    roundDouble_nine_millis]
  norm_num [toInt64, Int.floor_eq_iff]

end MusicPlayer

/-- The position of a packet at 1e16 s: the product 1e19 leaves the range of
`int64_t` and wraps to a negative value. -/
theorem lyricPts_wraps :
    MusicPlayer.lyricPts 10000000000000000 = -8446744073709551616 := by
  norm_num [MusicPlayer.lyricPts, toInt64, wrapInt64]

/-! ## The lyric cursor after a seek (C4, C5) -/

namespace MusicPlayer

theorem firstAfter_some (pts : Int) : ∀ (l : List LyricData) (k : Int) (i : Nat) (e : LyricData),
    l.get? i = some e → e.pts > pts →
    (∀ j e1, j < i → l.get? j = some e1 → e1.pts ≤ pts) →
    firstAfter pts l k = some (k + i) := by
  intro l
  induction l with
  | nil => intro k i e hi; simp at hi
  | cons a l ih =>
    intro k i e hi hgt hmin
    cases i with
    | zero =>
      simp only [List.get?_cons_zero, Option.some.injEq] at hi
      subst hi
      simp [firstAfter, hgt]
    | succ i =>
      have ha : ¬ a.pts > pts := not_lt.2 (hmin 0 a (Nat.succ_pos i) rfl)
      simp only [List.get?_cons_succ] at hi
      rw [firstAfter, if_neg ha,
        ih (k + 1) i e hi hgt (fun j e1 hj he1 => hmin (j + 1) e1 (Nat.succ_lt_succ hj) he1)]
      congr 1
      push_cast
      ring

theorem firstAfter_none (pts : Int) : ∀ (l : List LyricData) (k : Int),
    (∀ e ∈ l, e.pts ≤ pts) → firstAfter pts l k = none := by
  intro l
  induction l with
  | nil => intro k _; rfl
  | cons a l ih =>
    intro k h
    have ha : ¬ a.pts > pts := not_lt.2 (h a (List.mem_cons_self a l))
    rw [firstAfter, if_neg ha]
    exact ih (k + 1) (fun e he => h e (List.mem_cons_of_mem a he))

theorem firstAfter_range (pts : Int) : ∀ (l : List LyricData) (k i : Int),
    firstAfter pts l k = some i → k ≤ i ∧ i < k + l.length := by
  intro l
  induction l with
  | nil => intro k i h; simp [firstAfter] at h
  | cons a l ih =>
    intro k i h
    rw [firstAfter] at h
    by_cases ha : a.pts > pts
    · rw [if_pos ha] at h
      simp only [Option.some.injEq] at h
      subst h
      simp only [List.length_cons, Nat.cast_add, Nat.cast_one]
      omega
    · rw [if_neg ha] at h
      have := ih (k + 1) i h
      simp only [List.length_cons, Nat.cast_add, Nat.cast_one]
      omega

theorem setProgress_eq_seekLyrics {s : MusicPlayerPrivate} {ratio : qreal}
    (h : seekAccepted s ratio = true) :
    setProgress ratio s = seekLyrics
      { s with m_progress := ratio, m_audioBuffer := [],
               emitted := s.emitted ++ [Signal.progressChanged],
               decoderCalls := s.decoderCalls ++ [DecoderCall.setProgress ratio] } ratio := by
  rw [setProgress, if_pos h]
  rfl

end MusicPlayer

/-- C5: on an accepted seek with lyrics active, with the millisecond position
`pts = int64_t(ratio * duration * 1000)` as line 140 computes it in `double`
arithmetic, when `i` is the least index whose timestamp exceeds `pts`, the
cursor becomes `current = i - 1` (0 when `i = 0`) and `next = current + 1` when
that is below the number of entries, the number of entries otherwise. -/
theorem setProgress_syncs_cursor (ratio : qreal) (s : MusicPlayerPrivate) (i : Nat)
    (e : LyricData)
    (hrun : s.m_running = true) (hfar : |ratio - s.m_progress| > 1 / 1000000)
    (hl : s.m_hasLyrics = true)
    (hi : s.m_lyricsModel.get? i = some e)
    (hgt : e.pts > MusicPlayer.seekPts ratio s.m_duration)
    (hmin : ∀ j e1, j < i → s.m_lyricsModel.get? j = some e1 →
      e1.pts ≤ MusicPlayer.seekPts ratio s.m_duration) :
    (MusicPlayer.setProgress ratio s).m_lyricIndex = (if i = 0 then 0 else (i : Int) - 1) ∧
    (MusicPlayer.setProgress ratio s).m_nextIndex =
      (if (MusicPlayer.setProgress ratio s).m_lyricIndex + 1 < s.m_lyricsModel.count
       then (MusicPlayer.setProgress ratio s).m_lyricIndex + 1
       else s.m_lyricsModel.count) := by
  have ha : MusicPlayer.seekAccepted s ratio = true := by
    rw [MusicPlayer.seekAccepted_iff]
    rintro (h | h)
    · rw [hrun] at h; cases h
    · exact absurd hfar (not_lt.2 h)
  have hfa := MusicPlayer.firstAfter_some _ s.m_lyricsModel 0 i e hi hgt hmin
  rw [MusicPlayer.setProgress_eq_seekLyrics ha]
  rcases MusicPlayer.seekLyrics_cases
    { s with m_progress := ratio, m_audioBuffer := [],
             emitted := s.emitted ++ [Signal.progressChanged],
             decoderCalls := s.decoderCalls ++ [DecoderCall.setProgress ratio] } ratio
    with ⟨_, hnone⟩ | ⟨_, i1, hsome, heq⟩
  · have := hnone hl
    rw [hfa] at this
    cases this
  · rw [hfa] at hsome
    simp only [Option.some.injEq] at hsome
    subst hsome
    rw [heq]
    have hcur : (0 + (i : Int) > 0) ↔ ¬ (i = 0) := by omega
    refine ⟨?_, rfl⟩
    show (if 0 + (i : Int) > 0 then 0 + (i : Int) - 1 else 0) = _
    by_cases h0 : i = 0
    · simp [h0]
    · rw [if_pos (hcur.2 h0), if_neg h0]
      omega

theorem scenario_seek_position :
    MusicPlayer.seekPts (3 / 100) MusicPlayer.scenarioState.m_duration = 6000 := by
  have h : MusicPlayer.scenarioState.m_duration = 200 := rfl
  rw [h]
  exact MusicPlayer.seekPts_three_hundredths_of_200

/-- The witness of C5: in the seek scenario a seek to ratio 3/100 (6000 ms)
finds the entry at 12000 ms, index 2, and sets the cursor to (1, 2). -/
theorem setProgress_syncs_cursor_witness :
    MusicPlayer.scenarioState.m_running = true ∧
    |(3 / 100 : qreal) - MusicPlayer.scenarioState.m_progress| > 1 / 1000000 ∧
    MusicPlayer.scenarioState.m_hasLyrics = true ∧
    MusicPlayer.scenarioState.m_lyricsModel.get? 2 = some ⟨"third", 12000⟩ ∧
    MusicPlayer.seekPts (3 / 100) MusicPlayer.scenarioState.m_duration = 6000 ∧
    (12000 : Int) > MusicPlayer.seekPts (3 / 100) MusicPlayer.scenarioState.m_duration ∧
    ((MusicPlayer.setProgress (3 / 100) MusicPlayer.scenarioState).m_lyricIndex = 1 ∧
      (MusicPlayer.setProgress (3 / 100) MusicPlayer.scenarioState).m_nextIndex = 2) := by
  have hrun : MusicPlayer.scenarioState.m_running = true := rfl
  have hprog : MusicPlayer.scenarioState.m_progress = 0 := rfl
  have hfar : |(3 / 100 : qreal) - MusicPlayer.scenarioState.m_progress| > 1 / 1000000 := by
    rw [hprog]; norm_num [abs_of_pos]
  have hgt : (12000 : Int) > MusicPlayer.seekPts (3 / 100) MusicPlayer.scenarioState.m_duration := by
    rw [scenario_seek_position]; decide
  have hmin : ∀ j e1, j < 2 → MusicPlayer.scenarioState.m_lyricsModel.get? j = some e1 →
      e1.pts ≤ MusicPlayer.seekPts (3 / 100) MusicPlayer.scenarioState.m_duration := by
    intro j e1 hj he
    rw [scenario_seek_position]
    have hm : MusicPlayer.scenarioState.m_lyricsModel = MusicPlayer.scenarioLyrics := rfl
    rw [hm] at he
    interval_cases j
    · simp [MusicPlayer.scenarioLyrics] at he; subst he; decide
    · simp [MusicPlayer.scenarioLyrics] at he; subst he; decide
  have hcount : MusicPlayer.scenarioState.m_lyricsModel.count = 3 := rfl
  have key := setProgress_syncs_cursor (3 / 100) MusicPlayer.scenarioState 2
    ⟨"third", 12000⟩ hrun hfar rfl rfl hgt hmin
  refine ⟨hrun, hfar, rfl, rfl, scenario_seek_position, hgt, ?_⟩
  obtain ⟨k1, k2⟩ := key
  have k1b : (MusicPlayer.setProgress (3 / 100) MusicPlayer.scenarioState).m_lyricIndex = 1 := by
    rw [k1]; norm_num
  refine ⟨k1b, ?_⟩
  rw [k2, k1b, hcount]
  norm_num

namespace MusicPlayer

theorem setProgress_no_later_entry {s : MusicPlayerPrivate} {ratio : qreal}
    (h : seekAccepted s ratio = true)
    (hall : ∀ e ∈ s.m_lyricsModel, e.pts ≤ seekPts ratio s.m_duration) :
    (setProgress ratio s).m_lyricIndex = s.m_lyricIndex ∧
    (setProgress ratio s).m_nextIndex = s.m_nextIndex := by
  rw [setProgress_eq_seekLyrics h]
  rcases seekLyrics_cases
    { s with m_progress := ratio, m_audioBuffer := [],
             emitted := s.emitted ++ [Signal.progressChanged],
             decoderCalls := s.decoderCalls ++ [DecoderCall.setProgress ratio] } ratio
    with ⟨heq, _⟩ | ⟨_, i, hsome, _⟩
  · rw [heq]
    exact ⟨rfl, rfl⟩
  · have := firstAfter_none _ s.m_lyricsModel 0 hall
    rw [this] at hsome
    cases hsome

end MusicPlayer

/-- C4, evaluated on the code: in the seek scenario (duration 200 s, entries
at 0, 5000 and 12000 ms, cursor (0, 1) after `play`) the seek to ratio 1/2 is
accepted, its position 100000 ms is past every entry, and `setProgress`
leaves the cursor at (0, 1). -/
theorem setProgress_past_last_entry_keeps_cursor :
    MusicPlayer.seekAccepted MusicPlayer.scenarioState (1 / 2) = true ∧
    MusicPlayer.seekPts (1 / 2) MusicPlayer.scenarioState.m_duration = 100000 ∧
    (∀ e ∈ MusicPlayer.scenarioState.m_lyricsModel, e.pts ≤ 100000) ∧
    (MusicPlayer.setProgress (1 / 2) MusicPlayer.scenarioState).m_lyricIndex = 0 ∧
    (MusicPlayer.setProgress (1 / 2) MusicPlayer.scenarioState).m_nextIndex = 1 := by
  have hdur : MusicPlayer.scenarioState.m_duration = 200 := rfl
  have hprog : MusicPlayer.scenarioState.m_progress = 0 := rfl
  have hrun : MusicPlayer.scenarioState.m_running = true := rfl
  have hm : MusicPlayer.scenarioState.m_lyricsModel = MusicPlayer.scenarioLyrics := rfl
  have hacc : MusicPlayer.seekAccepted MusicPlayer.scenarioState (1 / 2) = true := by
    rw [MusicPlayer.seekAccepted_iff, hrun, hprog]
    norm_num [abs_of_pos]
  have hpts : MusicPlayer.seekPts (1 / 2) MusicPlayer.scenarioState.m_duration = 100000 := by
    rw [hdur]; exact MusicPlayer.seekPts_half_of_200
  have hall : ∀ e ∈ MusicPlayer.scenarioState.m_lyricsModel, e.pts ≤ 100000 := by
    intro e he
    rw [hm] at he
    simp only [MusicPlayer.scenarioLyrics, List.mem_cons, List.mem_singleton,
      List.not_mem_nil, or_false] at he
    rcases he with rfl | rfl | rfl <;> decide
  have key := MusicPlayer.setProgress_no_later_entry hacc (by rw [hpts]; exact hall)
  exact ⟨hacc, hpts, hall, key.1, key.2⟩

/-! ## The lyric advance of a packet step (C6, C9, C10) -/

namespace MusicPlayer

theorem packetStep_moved {s : MusicPlayerPrivate} {t : qreal} {cur nxt : LyricData}
    (hl : s.m_hasLyrics = true)
    (hc : s.m_lyricsModel.entryAt s.m_lyricIndex = some cur)
    (hn : s.m_lyricsModel.entryAt s.m_nextIndex = some nxt)
    (h1 : lyricPts t > cur.pts) (h2 : lyricPts t > nxt.pts) :
    packetStep s t = Except.ok
      (emit { advanced s with m_progress := t / s.m_duration } Signal.progressChanged) := by
  simp [packetStep, lyricStep, hl, hc, hn, h1, h2, advanced, emit]

theorem packetStep_stayed {s : MusicPlayerPrivate} {t : qreal} {cur nxt : LyricData}
    (hl : s.m_hasLyrics = true)
    (hc : s.m_lyricsModel.entryAt s.m_lyricIndex = some cur)
    (hn : s.m_lyricsModel.entryAt s.m_nextIndex = some nxt)
    (h : ¬ (lyricPts t > cur.pts ∧ lyricPts t > nxt.pts)) :
    packetStep s t = Except.ok
      (emit { s with m_progress := t / s.m_duration } Signal.progressChanged) := by
  by_cases h1 : lyricPts t > cur.pts
  · have h2 : ¬ lyricPts t > nxt.pts := fun h2 => h ⟨h1, h2⟩
    simp [packetStep, lyricStep, hl, hc, hn, h1, h2, emit]
  · simp [packetStep, lyricStep, hl, hc, h1, emit]

theorem emittedSince_append (s s1 : MusicPlayerPrivate) (l : List Signal)
    (h : s1.emitted = s.emitted ++ l) : emittedSince s s1 = l := by
  simp [emittedSince, h]

end MusicPlayer

theorem scenario_first_step :
    MusicPlayer.packetStep MusicPlayer.scenarioState 13 =
      Except.ok MusicPlayer.scenarioSecond := by
  have hc : MusicPlayer.scenarioState.m_lyricsModel.entryAt
      MusicPlayer.scenarioState.m_lyricIndex = some ⟨"first", 0⟩ := rfl
  have hn : MusicPlayer.scenarioState.m_lyricsModel.entryAt
      MusicPlayer.scenarioState.m_nextIndex = some ⟨"second", 5000⟩ := rfl
  have hp : MusicPlayer.lyricPts 13 = 13000 := by norm_num [MusicPlayer.lyricPts, toInt64, wrapInt64]
  rw [MusicPlayer.packetStep_moved rfl hc hn (by rw [hp]; decide) (by rw [hp]; decide)]
  rfl

theorem scenario_second_step :
    MusicPlayer.packetStep MusicPlayer.scenarioSecond 13 =
      Except.ok MusicPlayer.scenarioLast := by
  have hc : MusicPlayer.scenarioSecond.m_lyricsModel.entryAt
      MusicPlayer.scenarioSecond.m_lyricIndex = some ⟨"second", 5000⟩ := rfl
  have hn : MusicPlayer.scenarioSecond.m_lyricsModel.entryAt
      MusicPlayer.scenarioSecond.m_nextIndex = some ⟨"third", 12000⟩ := rfl
  have hp : MusicPlayer.lyricPts 13 = 13000 := by norm_num [MusicPlayer.lyricPts, toInt64, wrapInt64]
  rw [MusicPlayer.packetStep_moved rfl hc hn (by rw [hp]; decide) (by rw [hp]; decide)]
  rfl

theorem scenario_third_step :
    MusicPlayer.packetStep MusicPlayer.scenarioLast 13 =
      Except.ok MusicPlayer.scenarioLastAgain := by
  have hc : MusicPlayer.scenarioLast.m_lyricsModel.entryAt
      MusicPlayer.scenarioLast.m_lyricIndex = some ⟨"third", 12000⟩ := rfl
  have hn : MusicPlayer.scenarioLast.m_lyricsModel.entryAt
      MusicPlayer.scenarioLast.m_nextIndex = some ⟨"third", 12000⟩ := rfl
  have hp : MusicPlayer.lyricPts 13 = 13000 := by norm_num [MusicPlayer.lyricPts, toInt64, wrapInt64]
  rw [MusicPlayer.packetStep_moved rfl hc hn (by rw [hp]; decide) (by rw [hp]; decide)]
  rfl

/-- C9 fails as stated: from the scenario state three packets at 13 s are
stepped; the third finds the cursor on the last entry, emits
`lyricIndexChanged`, and leaves the lyric index at 2. -/
theorem lyricIndexChanged_without_change :
    MusicPlayer.packetStep MusicPlayer.scenarioState 13 =
      Except.ok MusicPlayer.scenarioSecond ∧
    MusicPlayer.packetStep MusicPlayer.scenarioSecond 13 =
      Except.ok MusicPlayer.scenarioLast ∧
    MusicPlayer.packetStep MusicPlayer.scenarioLast 13 =
      Except.ok MusicPlayer.scenarioLastAgain ∧
    MusicPlayer.scenarioLast.m_hasLyrics = true ∧
    ¬ (Signal.lyricIndexChanged ∈
        MusicPlayer.emittedSince MusicPlayer.scenarioLast MusicPlayer.scenarioLastAgain ↔
      MusicPlayer.scenarioLastAgain.m_lyricIndex ≠ MusicPlayer.scenarioLast.m_lyricIndex) := by
  refine ⟨scenario_first_step, scenario_second_step, scenario_third_step, rfl, ?_⟩
  have he : MusicPlayer.emittedSince MusicPlayer.scenarioLast MusicPlayer.scenarioLastAgain =
      [Signal.lyricIndexChanged, Signal.progressChanged] :=
    MusicPlayer.emittedSince_append _ _ _ rfl
  have hi : MusicPlayer.scenarioLastAgain.m_lyricIndex =
      MusicPlayer.scenarioLast.m_lyricIndex := rfl
  rw [he, hi]
  simp

/-- C10, evaluated on the code: for a packet at 5.9 s the position compared
with the timeline is 5000 ms, not the 5900 ms that truncating `t * 1000`
gives; in the scenario state, cursor (0, 1) with entries at 0 and 5000 ms, the
step of that packet therefore leaves the cursor at (0, 1). -/
theorem lyricPts_truncates_to_seconds :
    MusicPlayer.lyricPts (59 / 10) = 5000 ∧
    toInt64 (59 / 10 * 1000) = 5900 ∧
    MusicPlayer.endOfStream MusicPlayer.scenarioState.m_duration ⟨59 / 10, [1]⟩ = false ∧
    MusicPlayer.packetStep MusicPlayer.scenarioState (59 / 10) =
      Except.ok MusicPlayer.scenarioLate ∧
    MusicPlayer.scenarioLate.m_lyricIndex = 0 ∧ MusicPlayer.scenarioLate.m_nextIndex = 1 := by
  have hp : MusicPlayer.lyricPts (59 / 10) = 5000 := by
    norm_num [MusicPlayer.lyricPts, toInt64, wrapInt64, Int.floor_eq_iff]
  have hc : MusicPlayer.scenarioState.m_lyricsModel.entryAt
      MusicPlayer.scenarioState.m_lyricIndex = some ⟨"first", 0⟩ := rfl
  have hn : MusicPlayer.scenarioState.m_lyricsModel.entryAt
      MusicPlayer.scenarioState.m_nextIndex = some ⟨"second", 5000⟩ := rfl
  have hdur : MusicPlayer.scenarioState.m_duration = 200 := rfl
  refine ⟨hp, by norm_num [toInt64], ?_, ?_, rfl, rfl⟩
  · rw [hdur]
    norm_num [MusicPlayer.endOfStream]
  · rw [MusicPlayer.packetStep_stayed rfl hc hn (by rw [hp]; decide)]
    rfl

/-! ## The cursor never moves back in a tick (C7) -/

namespace MusicPlayer

theorem play_cursor (url : String) (lrc : LrcFile) (s : MusicPlayerPrivate) :
    (play url lrc s).m_lyricIndex = 0 ∧
    ((play url lrc s).m_nextIndex = 0 ∨ (play url lrc s).m_nextIndex = 1) := by
  cases lrc with
  | absent => exact ⟨rfl, Or.inl rfl⟩
  | undecodable => exact ⟨rfl, Or.inl rfl⟩
  | decoded entries =>
    unfold play
    simp only
    split
    · exact ⟨rfl, Or.inr (by simp)⟩
    · exact ⟨rfl, Or.inl rfl⟩

theorem setProgress_cursor_ordered (ratio : qreal) (s : MusicPlayerPrivate)
    (h : s.m_lyricIndex ≤ s.m_nextIndex) :
    (setProgress ratio s).m_lyricIndex ≤ (setProgress ratio s).m_nextIndex := by
  by_cases ha : seekAccepted s ratio = true
  · rw [setProgress_eq_seekLyrics ha]
    rcases seekLyrics_cases
      { s with m_progress := ratio, m_audioBuffer := [],
               emitted := s.emitted ++ [Signal.progressChanged],
               decoderCalls := s.decoderCalls ++ [DecoderCall.setProgress ratio] } ratio
      with ⟨heq, _⟩ | ⟨_, i, hsome, heq⟩
    · rw [heq]; exact h
    · rw [heq]
      have hr := firstAfter_range _ _ _ _ hsome
      show (if i > 0 then i - 1 else 0) ≤
        (if (if i > 0 then i - 1 else 0) + 1 < s.m_lyricsModel.count
         then (if i > 0 then i - 1 else 0) + 1 else s.m_lyricsModel.count)
      have hcount : s.m_lyricsModel.count = (s.m_lyricsModel.length : Int) := rfl
      rw [hcount]
      have hr2 : i < (s.m_lyricsModel.length : Int) := by
        have := hr.2
        simpa using this
      split <;> split <;> omega
  · rw [setProgress, if_neg ha]; exact h

theorem packetStep_cursor {s s2 : MusicPlayerPrivate} {t : qreal}
    (h : packetStep s t = Except.ok s2) (ho : s.m_lyricIndex ≤ s.m_nextIndex) :
    s.m_lyricIndex ≤ s2.m_lyricIndex ∧ s.m_nextIndex ≤ s2.m_nextIndex ∧
      s2.m_lyricIndex ≤ s2.m_nextIndex := by
  obtain ⟨s1, h1, rfl⟩ := packetStep_eq h
  rcases lyricStep_cases h1 with ⟨rfl, _⟩ | ⟨rfl, _⟩
  · exact ⟨le_refl _, le_refl _, ho⟩
  · show s.m_lyricIndex ≤ s.m_nextIndex ∧
      s.m_nextIndex ≤ (if s.m_nextIndex + 1 < s.m_lyricsModel.count
        then s.m_nextIndex + 1 else s.m_nextIndex) ∧
      s.m_nextIndex ≤ (if s.m_nextIndex + 1 < s.m_lyricsModel.count
        then s.m_nextIndex + 1 else s.m_nextIndex)
    split <;> omega

theorem pullLoop_cursor (bytesFree : Int) (src : Nat → AudioPacket) :
    ∀ fuel k s r, pullLoop bytesFree src fuel k s = Except.ok r →
      s.m_lyricIndex ≤ s.m_nextIndex →
      s.m_lyricIndex ≤ r.state.m_lyricIndex ∧ s.m_nextIndex ≤ r.state.m_nextIndex ∧
        r.state.m_lyricIndex ≤ r.state.m_nextIndex := by
  apply pullLoop_induct bytesFree src (fun _ s r => s.m_lyricIndex ≤ s.m_nextIndex →
      s.m_lyricIndex ≤ r.state.m_lyricIndex ∧ s.m_nextIndex ≤ r.state.m_nextIndex ∧
        r.state.m_lyricIndex ≤ r.state.m_nextIndex)
  · intro k s _ ho; exact ⟨le_refl _, le_refl _, ho⟩
  · intro k s _ _ ho; exact ⟨le_refl _, le_refl _, ho⟩
  · intro k s s1 _ _ hp _ ho; exact packetStep_cursor hp ho
  · intro k s s1 r _ _ hp _ ih ho
    obtain ⟨h1, h2, h3⟩ := packetStep_cursor hp ho
    obtain ⟨h4, h5, h6⟩ := ih h3
    exact ⟨le_trans h1 h4, le_trans h2 h5, h6⟩

theorem update_cursor {bytesFree periodSize : Int} {src : Nat → AudioPacket}
    {s : MusicPlayerPrivate} {r : Pulled}
    (h : update bytesFree periodSize src s = Except.ok r)
    (ho : s.m_lyricIndex ≤ s.m_nextIndex) :
    s.m_lyricIndex ≤ r.state.m_lyricIndex ∧ s.m_nextIndex ≤ r.state.m_nextIndex ∧
      r.state.m_lyricIndex ≤ r.state.m_nextIndex := by
  obtain ⟨_, r0, hp, hr⟩ := update_cases h
  have key := pullLoop_cursor bytesFree src _ _ _ _ hp ho
  rcases hr with ⟨_, rfl⟩ | ⟨_, s1, hd, rfl⟩
  · exact key
  · have hf := (drain_conserves hd).1
    have h1 : s1.m_lyricIndex = r0.state.m_lyricIndex := by rw [hf]
    have h2 : s1.m_nextIndex = r0.state.m_nextIndex := by rw [hf]
    show s.m_lyricIndex ≤ s1.m_lyricIndex ∧ s.m_nextIndex ≤ s1.m_nextIndex ∧
      s1.m_lyricIndex ≤ s1.m_nextIndex
    rw [h1, h2]
    exact key

theorem reachable_cursor_ordered {s : MusicPlayerPrivate} (h : Reachable s) :
    s.m_lyricIndex ≤ s.m_nextIndex := by
  induction h with
  | init => exact le_refl _
  | play url lrc _ _ =>
    obtain ⟨h1, h2⟩ := play_cursor url lrc _
    rw [h1]
    rcases h2 with h2 | h2 <;> rw [h2]
    decide
  | resolved title singer album duration _ ih => exact ih
  | setProgress ratio _ ih => exact setProgress_cursor_ordered ratio _ ih
  | update bytesFree periodSize src _ hu ih => exact (update_cursor hu ih).2.2

end MusicPlayer

/-- C7: from a state reachable by `play`, source resolution, `setProgress`
and pump ticks, a pump tick never decreases the lyric cursor: neither the
current index nor the next index is smaller after the tick than before. -/
theorem update_never_decreases_cursor (s : MusicPlayerPrivate) (hs : Reachable s)
    (bytesFree periodSize : Int) (src : Nat → AudioPacket) (r : MusicPlayer.Pulled)
    (h : MusicPlayer.update bytesFree periodSize src s = Except.ok r) :
    s.m_lyricIndex ≤ r.state.m_lyricIndex ∧ s.m_nextIndex ≤ r.state.m_nextIndex :=
  let key := MusicPlayer.update_cursor h (MusicPlayer.reachable_cursor_ordered hs)
  ⟨key.1, key.2.1⟩

theorem scenario_reachable : Reachable MusicPlayer.scenarioState :=
  Reachable.resolved "title" "singer" "album" 200
    (Reachable.play "song.mp3" (MusicPlayer.LrcFile.decoded MusicPlayer.scenarioLyrics)
      Reachable.init)

theorem pullLoop_idle_step {bytesFree : Int} {src : Nat → AudioPacket} {fuel k : Nat}
    {s s1 : MusicPlayerPrivate} (hlt : s.m_audioBuffer.size < bytesFree)
    (he : MusicPlayer.endOfStream s.m_duration (src k) = false)
    (hp : MusicPlayer.packetStep s (src k).time = Except.ok s1)
    (hd : (src k).data = []) :
    MusicPlayer.pullLoop bytesFree src (fuel + 1) k s = Except.ok ⟨s1, k + 1, false⟩ := by
  rw [MusicPlayer.pullLoop, if_pos hlt]
  simp [he, hp, hd]

theorem scenario_tick :
    MusicPlayer.update 8 4 MusicPlayer.lateSource MusicPlayer.scenarioState =
      Except.ok MusicPlayer.scenarioTicked := by
  have hdur : MusicPlayer.scenarioState.m_duration = 200 := rfl
  have hpull : MusicPlayer.pullLoop 8 MusicPlayer.lateSource
      (MusicPlayer.pullBudget 8 MusicPlayer.scenarioState) 0 MusicPlayer.scenarioState =
      Except.ok ⟨MusicPlayer.scenarioSecond, 1, false⟩ := by
    show MusicPlayer.pullLoop 8 MusicPlayer.lateSource (7 + 1) 0 MusicPlayer.scenarioState = _
    apply pullLoop_idle_step
    · decide
    · rw [hdur]; norm_num [MusicPlayer.endOfStream, MusicPlayer.lateSource]
    · exact scenario_first_step
    · rfl
  have hdrain : MusicPlayer.drain 4 MusicPlayer.scenarioSecond =
      Except.ok MusicPlayer.scenarioSecond := by
    rw [show (4 : Int) = ((4 : Nat) : Int) from rfl, MusicPlayer.drain_whole 4 (by decide)]
    rfl
  have hsink : MusicPlayer.scenarioState.m_audioOutput = true := rfl
  rw [MusicPlayer.update, if_pos hsink, hpull]
  simp only [Bool.false_eq_true, if_false, hdrain]
  rfl

/-- The witness of C7: the scenario state is reachable, and its tick on a
packet at 13 s moves the cursor from (0, 1) to (1, 2). -/
theorem update_never_decreases_cursor_witness :
    Reachable MusicPlayer.scenarioState ∧
    MusicPlayer.update 8 4 MusicPlayer.lateSource MusicPlayer.scenarioState =
      Except.ok MusicPlayer.scenarioTicked ∧
    (MusicPlayer.scenarioState.m_lyricIndex ≤ MusicPlayer.scenarioTicked.state.m_lyricIndex ∧
      MusicPlayer.scenarioState.m_nextIndex ≤ MusicPlayer.scenarioTicked.state.m_nextIndex) :=
  ⟨scenario_reachable, scenario_tick,
    update_never_decreases_cursor MusicPlayer.scenarioState scenario_reachable 8 4
      MusicPlayer.lateSource MusicPlayer.scenarioTicked scenario_tick⟩

/-! ## The iteration bound of the pull loop is never reached -/

namespace MusicPlayer

theorem lyricStep_error {s : MusicPlayerPrivate} {t : qreal} {f : Fault}
    (h : lyricStep s t = Except.error f) : f = Fault.lyricOutOfRange := by
  unfold lyricStep at h
  by_cases hl : s.m_hasLyrics = true
  · rw [if_pos hl] at h
    cases hc : s.m_lyricsModel.entryAt s.m_lyricIndex with
    | none => rw [hc] at h; cases h; rfl
    | some cur =>
      rw [hc] at h
      by_cases h1 : lyricPts t > cur.pts
      · simp only [h1, if_true] at h
        cases hn : s.m_lyricsModel.entryAt s.m_nextIndex with
        | none => rw [hn] at h; cases h; rfl
        | some nxt =>
          rw [hn] at h
          by_cases h2 : lyricPts t > nxt.pts
          · simp only [h2, if_true] at h; cases h
          · simp only [h2, if_false] at h; cases h
      · simp only [h1, if_false] at h; cases h
  · rw [if_neg hl] at h; cases h

theorem packetStep_error {s : MusicPlayerPrivate} {t : qreal} {f : Fault}
    (h : packetStep s t = Except.error f) : f = Fault.lyricOutOfRange := by
  unfold packetStep at h
  cases hl : lyricStep s t with
  | error f1 =>
    rw [hl] at h
    simp only [Except.error.injEq] at h
    subst h
    exact lyricStep_error hl
  | ok s1 => rw [hl] at h; cases h

theorem pullLoop_never_out_of_fuel (bytesFree : Int) (src : Nat → AudioPacket) :
    ∀ (fuel k : Nat) (s : MusicPlayerPrivate),
      (bytesFree - s.m_audioBuffer.size).toNat ≤ fuel →
      pullLoop bytesFree src fuel k s ≠ Except.error Fault.outOfFuel := by
  intro fuel
  induction fuel with
  | zero =>
    intro k s hb
    have hlt : ¬ s.m_audioBuffer.size < bytesFree := by omega
    rw [pullLoop, if_neg hlt]
    simp
  | succ fuel ih =>
    intro k s hb
    rw [pullLoop]
    by_cases hlt : s.m_audioBuffer.size < bytesFree
    · rw [if_pos hlt]
      by_cases he : endOfStream s.m_duration (src k) = true
      · simp [he]
      · simp only [he]
        cases hp : packetStep s (src k).time with
        | error f =>
          have := packetStep_error hp
          subst this
          simp
        | ok s1 =>
          cases hd : (src k).data with
          | nil => simp
          | cons a l =>
            simp only [List.isEmpty_cons, Bool.false_eq_true, if_false]
            apply ih
            have hbuf : s1.m_audioBuffer = s.m_audioBuffer := by rw [(packetStep_frame hp).1]
            simp only [QByteArray.size, hbuf, List.length_append, List.length_cons,
              Nat.cast_add, Nat.cast_one] at hlt hb ⊢
            omega
    · rw [if_neg hlt]
      simp

theorem update_never_out_of_fuel (bytesFree periodSize : Int) (src : Nat → AudioPacket)
    (s : MusicPlayerPrivate) :
    update bytesFree periodSize src s ≠ Except.error Fault.outOfFuel := by
  have key := pullLoop_never_out_of_fuel bytesFree src (pullBudget bytesFree s) 0 s (le_refl _)
  unfold update
  by_cases ho : s.m_audioOutput = true
  · rw [if_pos ho]
    cases hp : pullLoop bytesFree src (pullBudget bytesFree s) 0 s with
    | error f =>
      intro h
      simp only [Except.error.injEq] at h
      subst h
      exact key hp
    | ok r =>
      by_cases hf : r.finished = true
      · simp [hf]
      · simp only [hf]
        unfold drain
        by_cases hz : periodSize = 0
        · simp [hz]
        · simp [hz]
  · rw [if_neg ho]
    simp

end MusicPlayer

/-! ## What `play` and the resolution leave behind (C11, C12, C13, C14) -/

theorem pullLoop_fault_step {bytesFree : Int} {src : Nat → AudioPacket} {fuel k : Nat}
    {s : MusicPlayerPrivate} {f : Fault} (hlt : s.m_audioBuffer.size < bytesFree)
    (he : MusicPlayer.endOfStream s.m_duration (src k) = false)
    (hp : MusicPlayer.packetStep s (src k).time = Except.error f) :
    MusicPlayer.pullLoop bytesFree src (fuel + 1) k s = Except.error f := by
  rw [MusicPlayer.pullLoop, if_pos hlt]
  simp [he, hp]

theorem update_of_pullLoop_error {bytesFree periodSize : Int} {src : Nat → AudioPacket}
    {s : MusicPlayerPrivate} {f : Fault} (ho : s.m_audioOutput = true)
    (hp : MusicPlayer.pullLoop bytesFree src (MusicPlayer.pullBudget bytesFree s) 0 s =
      Except.error f) :
    MusicPlayer.update bytesFree periodSize src s = Except.error f := by
  rw [MusicPlayer.update, if_pos ho, hp]

/-- C11, evaluated on the code: `play` of a track whose lyric file decodes to
zero entries sets the lyrics-active flag; after the resolution of such a track
a tick that pulls a packet at 13 s of 200 s looks the timeline up at index 0
and finds no entry there. -/
theorem play_empty_timeline_activates_lyrics :
    (∀ (url : String) (s : MusicPlayerPrivate),
      (MusicPlayer.play url (MusicPlayer.LrcFile.decoded []) s).m_hasLyrics = true ∧
      (MusicPlayer.play url (MusicPlayer.LrcFile.decoded []) s).m_lyricsModel = []) ∧
    MusicPlayer.emptyLyricsState.m_hasLyrics = true ∧
    MusicPlayer.emptyLyricsState.m_lyricsModel.entryAt
      MusicPlayer.emptyLyricsState.m_lyricIndex = none ∧
    MusicPlayer.update 8 4 MusicPlayer.lateSource MusicPlayer.emptyLyricsState =
      Except.error Fault.lyricOutOfRange := by
  refine ⟨fun url s => ⟨rfl, rfl⟩, rfl, rfl, ?_⟩
  have hdur : MusicPlayer.emptyLyricsState.m_duration = 200 := rfl
  apply update_of_pullLoop_error rfl
  show MusicPlayer.pullLoop 8 MusicPlayer.lateSource (7 + 1) 0 MusicPlayer.emptyLyricsState = _
  apply pullLoop_fault_step
  · decide
  · rw [hdur]; norm_num [MusicPlayer.endOfStream, MusicPlayer.lateSource]
  · rfl

/-- C12 fails as stated: a resolution that reports the duration 0, on a state
where `running` is false and the timer is inactive, sets `running` to true and
starts the timer. -/
theorem resolved_zero_duration_runs :
    (MusicPlayer.play "song.mp3" MusicPlayer.LrcFile.absent MusicPlayer.init).m_running = false ∧
    (MusicPlayer.play "song.mp3" MusicPlayer.LrcFile.absent MusicPlayer.init).m_playTimer = false ∧
    MusicPlayer.zeroDurationState.m_duration = 0 ∧
    MusicPlayer.zeroDurationState.m_running = true ∧
    MusicPlayer.zeroDurationState.m_playTimer = true :=
  ⟨rfl, rfl, rfl, rfl, rfl⟩

/-- C12, amended: the resolution handler sets `running` to true and starts the
tick timer whatever duration it reports; when the reported duration is not
greater than 0, a tick whose first pulled packet has a time of at least 0
ends with that packet: end of stream, `running` false, the timer stopped and
nothing written. -/
theorem resolved_always_runs (title singer album : String) (duration : qreal)
    (s : MusicPlayerPrivate) :
    (MusicPlayer.resolved title singer album duration s).m_running = true ∧
    (MusicPlayer.resolved title singer album duration s).m_playTimer = true ∧
    (MusicPlayer.resolved title singer album duration s).m_duration = duration ∧
    (duration ≤ 0 →
      ∀ (bytesFree periodSize : Int) (src : Nat → AudioPacket) (r : MusicPlayer.Pulled),
        MusicPlayer.update bytesFree periodSize src
          (MusicPlayer.resolved title singer album duration s) = Except.ok r →
        0 < r.pulls → 0 ≤ (src 0).time →
        r.pulls = 1 ∧ r.finished = true ∧ r.state.m_running = false ∧
        r.state.m_playTimer = false ∧ r.state.written = s.written) := by
  refine ⟨rfl, rfl, rfl, ?_⟩
  intro hd bytesFree periodSize src r h hpulls ht
  obtain ⟨_, r0, hp, hr⟩ := MusicPlayer.update_cases h
  have hpulls0 : r.pulls = r0.pulls := by
    rcases hr with ⟨_, rfl⟩ | ⟨_, s1, _, rfl⟩ <;> rfl
  have he : MusicPlayer.endOfStream
      (MusicPlayer.resolved title singer album duration s).m_duration (src 0) = true := by
    rw [MusicPlayer.endOfStream_iff]
    left
    show (src 0).time ≥ duration
    exact le_trans hd ht
  obtain ⟨h1, h2, s1, h3, _, h5, _⟩ :=
    MusicPlayer.pullLoop_stops_at_end bytesFree src _ _ _ _ hp 0 (le_refl 0)
      (hpulls0 ▸ hpulls) he
  have hr0 : r = r0 := by
    rcases hr with ⟨_, rfl⟩ | ⟨hf, _⟩
    · rfl
    · rw [hf] at h2; cases h2
  subst hr0
  refine ⟨h1, h2, ?_, ?_, ?_⟩
  · rw [h3]; rfl
  · rw [h3]; rfl
  · rw [h3]
    show s1.written = s.written
    rw [h5]
    rfl

theorem zero_duration_tick :
    MusicPlayer.update 8 4 MusicPlayer.startingSource MusicPlayer.zeroDurationState =
      Except.ok MusicPlayer.zeroDurationEnded := by
  have hsink : MusicPlayer.zeroDurationState.m_audioOutput = true := rfl
  have hdur : MusicPlayer.zeroDurationState.m_duration = 0 := rfl
  have hlt : MusicPlayer.zeroDurationState.m_audioBuffer.size < 8 := by decide
  have he : MusicPlayer.endOfStream MusicPlayer.zeroDurationState.m_duration
      (MusicPlayer.startingSource 0) = true := by
    rw [hdur]; norm_num [MusicPlayer.endOfStream, MusicPlayer.startingSource]
  have hpull : MusicPlayer.pullLoop 8 MusicPlayer.startingSource
      (MusicPlayer.pullBudget 8 MusicPlayer.zeroDurationState) 0
      MusicPlayer.zeroDurationState = Except.ok MusicPlayer.zeroDurationEnded := by
    show MusicPlayer.pullLoop 8 MusicPlayer.startingSource (7 + 1) 0
      MusicPlayer.zeroDurationState = _
    rw [MusicPlayer.pullLoop, if_pos hlt]
    simp only [he, if_true]
    rfl
  rw [MusicPlayer.update, if_pos hsink, hpull]
  rfl

/-- The witness of the amended C12: a track resolved with the duration 0 is
ended by the first packet of its first tick, a packet at 0 s with data. -/
theorem resolved_always_runs_witness :
    MusicPlayer.zeroDurationState.m_running = true ∧
    MusicPlayer.zeroDurationState.m_playTimer = true ∧
    MusicPlayer.update 8 4 MusicPlayer.startingSource MusicPlayer.zeroDurationState =
      Except.ok MusicPlayer.zeroDurationEnded ∧
    (MusicPlayer.zeroDurationEnded.pulls = 1 ∧ MusicPlayer.zeroDurationEnded.finished = true ∧
      MusicPlayer.zeroDurationEnded.state.m_running = false ∧
      MusicPlayer.zeroDurationEnded.state.m_playTimer = false ∧
      MusicPlayer.zeroDurationEnded.state.written =
        (MusicPlayer.play "song.mp3" MusicPlayer.LrcFile.absent MusicPlayer.init).written) :=
  ⟨rfl, rfl, zero_duration_tick,
    (resolved_always_runs "title" "singer" "album" 0
      (MusicPlayer.play "song.mp3" MusicPlayer.LrcFile.absent MusicPlayer.init)).2.2.2
      (le_refl 0) 8 4 MusicPlayer.startingSource MusicPlayer.zeroDurationEnded
      zero_duration_tick (by decide) (le_refl (0 : ℚ))⟩

/-- C13 fails as stated: `play` of a next track on the scenario state, whose
duration is 200 s, leaves the duration at 200 s. -/
theorem play_keeps_duration :
    MusicPlayer.scenarioState.m_duration = 200 ∧
    MusicPlayer.nextTrackState.m_duration = 200 ∧
    ¬ (MusicPlayer.nextTrackState.m_duration = 0) := by
  have h : MusicPlayer.nextTrackState.m_duration = 200 := rfl
  refine ⟨rfl, h, ?_⟩
  rw [h]
  norm_num

/-- C13, amended: immediately after `play(track)` the progress is 0, `running`
is false, the tick timer is inactive and the staged buffer is empty; the
duration is the one the state had before the call. -/
theorem play_resets_clock (url : String) (lrc : MusicPlayer.LrcFile)
    (s : MusicPlayerPrivate) :
    (MusicPlayer.play url lrc s).m_progress = 0 ∧
    (MusicPlayer.play url lrc s).m_running = false ∧
    (MusicPlayer.play url lrc s).m_playTimer = false ∧
    (MusicPlayer.play url lrc s).m_audioBuffer = [] ∧
    (MusicPlayer.play url lrc s).m_duration = s.m_duration := by
  have hsus : (MusicPlayer.suspend s).m_playTimer = false ∧
      (MusicPlayer.suspend s).m_duration = s.m_duration := by
    unfold MusicPlayer.suspend
    by_cases ht : s.m_playTimer = true
    · rw [if_pos ht]; exact ⟨rfl, rfl⟩
    · rw [if_neg ht]; exact ⟨by simpa using ht, rfl⟩
  have hcur : (MusicPlayer.setCurMusic url (MusicPlayer.suspend s)).m_playTimer = false ∧
      (MusicPlayer.setCurMusic url (MusicPlayer.suspend s)).m_duration = s.m_duration := by
    unfold MusicPlayer.setCurMusic
    by_cases hu : url ≠ (MusicPlayer.suspend s).m_curMusic
    · rw [if_pos hu]; exact hsus
    · rw [if_neg hu]; exact hsus
  cases lrc with
  | absent => exact ⟨rfl, rfl, hcur.1, rfl, hcur.2⟩
  | undecodable => exact ⟨rfl, rfl, hcur.1, rfl, hcur.2⟩
  | decoded entries =>
    unfold MusicPlayer.play
    simp only
    split
    · exact ⟨rfl, rfl, hcur.1, rfl, hcur.2⟩
    · exact ⟨rfl, rfl, hcur.1, rfl, hcur.2⟩

/-- C14 fails as stated: `play` of a track whose lyric file decodes to the
three entries of the scenario leaves the cursor at current = 0, next = 1. -/
theorem play_three_entries_next_is_one :
    (MusicPlayer.play "song.mp3" (MusicPlayer.LrcFile.decoded MusicPlayer.scenarioLyrics)
      MusicPlayer.init).m_lyricIndex = 0 ∧
    (MusicPlayer.play "song.mp3" (MusicPlayer.LrcFile.decoded MusicPlayer.scenarioLyrics)
      MusicPlayer.init).m_nextIndex = 1 ∧
    ¬ ((MusicPlayer.play "song.mp3" (MusicPlayer.LrcFile.decoded MusicPlayer.scenarioLyrics)
      MusicPlayer.init).m_nextIndex = 0) :=
  ⟨rfl, rfl, by decide⟩

/-- C14, amended: after a `play(track)` that decodes a lyric file and installs
its entries, the timeline is those entries, lyrics are active, current is 0,
and next is 1 when the timeline has at least two entries, 0 otherwise. -/
theorem play_installs_cursor (url : String) (entries : List LyricData)
    (s : MusicPlayerPrivate) :
    (MusicPlayer.play url (MusicPlayer.LrcFile.decoded entries) s).m_lyricsModel = entries ∧
    (MusicPlayer.play url (MusicPlayer.LrcFile.decoded entries) s).m_hasLyrics = true ∧
    (MusicPlayer.play url (MusicPlayer.LrcFile.decoded entries) s).m_lyricIndex = 0 ∧
    (MusicPlayer.play url (MusicPlayer.LrcFile.decoded entries) s).m_nextIndex =
      (if 2 ≤ entries.length then 1 else 0) := by
  unfold MusicPlayer.play
  simp only
  have hc : ((0 : Int) + 1 < LyricsModel.count entries) ↔ 2 ≤ entries.length := by
    unfold LyricsModel.count
    omega
  by_cases h2 : 2 ≤ entries.length
  · rw [if_pos (hc.2 h2), if_pos h2]
    exact ⟨rfl, rfl, rfl, by simp⟩
  · rw [if_neg (fun h => h2 (hc.1 h)), if_neg h2]
    exact ⟨rfl, rfl, rfl, rfl⟩

/-! ## Suspending (C18) -/

/-- C18: `suspend()` changes nothing but the tick timer, which it makes
inactive; applied twice it yields the state that one application yields. -/
theorem suspend_only_stops_timer (s : MusicPlayerPrivate) :
    MusicPlayer.suspend s = { s with m_playTimer := false } ∧
    MusicPlayer.suspend (MusicPlayer.suspend s) = MusicPlayer.suspend s := by
  have h1 : MusicPlayer.suspend s = { s with m_playTimer := false } := by
    unfold MusicPlayer.suspend
    by_cases ht : s.m_playTimer = true
    · rw [if_pos ht]
    · rw [if_neg ht]
      have hf : s.m_playTimer = false := by simpa using ht
      cases s
      simp only at hf
      subst hf
      rfl
  refine ⟨h1, ?_⟩
  have h2 : (MusicPlayer.suspend s).m_playTimer = false := by rw [h1]
  unfold MusicPlayer.suspend at h2 ⊢
  by_cases ht : s.m_playTimer = true
  · rw [if_pos ht] at h2 ⊢
    rfl
  · rw [if_neg ht] at h2 ⊢
    rw [if_neg ht]

/-! ## The cursor stays within the timeline (C15) -/

namespace MusicPlayer

theorem packetStep_cursor_bounds {s s2 : MusicPlayerPrivate} {t : qreal}
    (h : packetStep s t = Except.ok s2)
    (h0 : 0 ≤ s.m_lyricIndex) (h1 : s.m_lyricIndex ≤ s.m_nextIndex)
    (h2 : s.m_nextIndex ≤ s.m_lyricsModel.count) :
    0 ≤ s2.m_lyricIndex ∧ s2.m_nextIndex ≤ s2.m_lyricsModel.count := by
  obtain ⟨s1, hl, rfl⟩ := packetStep_eq h
  rcases lyricStep_cases hl with ⟨rfl, _⟩ | ⟨rfl, _⟩
  · exact ⟨h0, h2⟩
  · show 0 ≤ s.m_nextIndex ∧
      (if s.m_nextIndex + 1 < s.m_lyricsModel.count then s.m_nextIndex + 1
        else s.m_nextIndex) ≤ s.m_lyricsModel.count
    split <;> omega

theorem pullLoop_cursor_bounds (bytesFree : Int) (src : Nat → AudioPacket) :
    ∀ fuel k s r, pullLoop bytesFree src fuel k s = Except.ok r →
      0 ≤ s.m_lyricIndex → s.m_lyricIndex ≤ s.m_nextIndex →
      s.m_nextIndex ≤ s.m_lyricsModel.count →
      0 ≤ r.state.m_lyricIndex ∧ r.state.m_lyricIndex ≤ r.state.m_nextIndex ∧
        r.state.m_nextIndex ≤ r.state.m_lyricsModel.count := by
  apply pullLoop_induct bytesFree src (fun _ s r =>
      0 ≤ s.m_lyricIndex → s.m_lyricIndex ≤ s.m_nextIndex →
      s.m_nextIndex ≤ s.m_lyricsModel.count →
      0 ≤ r.state.m_lyricIndex ∧ r.state.m_lyricIndex ≤ r.state.m_nextIndex ∧
        r.state.m_nextIndex ≤ r.state.m_lyricsModel.count)
  · intro k s _ h0 h1 h2; exact ⟨h0, h1, h2⟩
  · intro k s _ _ h0 h1 h2; exact ⟨h0, h1, h2⟩
  · intro k s s1 _ _ hp _ h0 h1 h2
    obtain ⟨a, b⟩ := packetStep_cursor_bounds hp h0 h1 h2
    exact ⟨a, (packetStep_cursor hp h1).2.2, b⟩
  · intro k s s1 r _ _ hp _ ih h0 h1 h2
    obtain ⟨a, b⟩ := packetStep_cursor_bounds hp h0 h1 h2
    exact ih a (packetStep_cursor hp h1).2.2 b

theorem update_cursor_bounds {bytesFree periodSize : Int} {src : Nat → AudioPacket}
    {s : MusicPlayerPrivate} {r : Pulled}
    (h : update bytesFree periodSize src s = Except.ok r)
    (h0 : 0 ≤ s.m_lyricIndex) (h1 : s.m_lyricIndex ≤ s.m_nextIndex)
    (h2 : s.m_nextIndex ≤ s.m_lyricsModel.count) :
    0 ≤ r.state.m_lyricIndex ∧ r.state.m_lyricIndex ≤ r.state.m_nextIndex ∧
      r.state.m_nextIndex ≤ r.state.m_lyricsModel.count := by
  obtain ⟨_, r0, hp, hr⟩ := update_cases h
  have key := pullLoop_cursor_bounds bytesFree src _ _ _ _ hp h0 h1 h2
  rcases hr with ⟨_, rfl⟩ | ⟨_, s1, hd, rfl⟩
  · exact key
  · have hf := (drain_conserves hd).1
    have e1 : s1.m_lyricIndex = r0.state.m_lyricIndex := by rw [hf]
    have e2 : s1.m_nextIndex = r0.state.m_nextIndex := by rw [hf]
    have e3 : s1.m_lyricsModel = r0.state.m_lyricsModel := by rw [hf]
    show 0 ≤ s1.m_lyricIndex ∧ s1.m_lyricIndex ≤ s1.m_nextIndex ∧
      s1.m_nextIndex ≤ s1.m_lyricsModel.count
    rw [e1, e2, e3]
    exact key

theorem setProgress_cursor_bounds (ratio : qreal) (s : MusicPlayerPrivate)
    (h0 : 0 ≤ s.m_lyricIndex) (h2 : s.m_nextIndex ≤ s.m_lyricsModel.count) :
    0 ≤ (setProgress ratio s).m_lyricIndex ∧
      (setProgress ratio s).m_nextIndex ≤ (setProgress ratio s).m_lyricsModel.count := by
  by_cases ha : seekAccepted s ratio = true
  · rw [setProgress_eq_seekLyrics ha]
    rcases seekLyrics_cases
      { s with m_progress := ratio, m_audioBuffer := [],
               emitted := s.emitted ++ [Signal.progressChanged],
               decoderCalls := s.decoderCalls ++ [DecoderCall.setProgress ratio] } ratio
      with ⟨heq, _⟩ | ⟨_, i, hsome, heq⟩
    · rw [heq]; exact ⟨h0, h2⟩
    · rw [heq]
      have hr := firstAfter_range _ _ _ _ hsome
      show 0 ≤ (if i > 0 then i - 1 else 0) ∧
        (if (if i > 0 then i - 1 else 0) + 1 < s.m_lyricsModel.count
         then (if i > 0 then i - 1 else 0) + 1 else s.m_lyricsModel.count) ≤
          s.m_lyricsModel.count
      obtain ⟨c, hc⟩ : ∃ c, c = (if i > 0 then i - 1 else 0) := ⟨_, rfl⟩
      rw [← hc]
      have hc0 : 0 ≤ c := by rw [hc]; split <;> omega
      refine ⟨hc0, ?_⟩
      by_cases hlt : c + 1 < s.m_lyricsModel.count
      · rw [if_pos hlt]; omega
      · rw [if_neg hlt]
  · rw [setProgress, if_neg ha]; exact ⟨h0, h2⟩

theorem play_cursor_bounds (url : String) (lrc : LrcFile) (s : MusicPlayerPrivate) :
    (play url lrc s).m_nextIndex ≤ (play url lrc s).m_lyricsModel.count := by
  have hnn : ∀ m : LyricsModel, (0 : Int) ≤ m.count := fun m => Int.ofNat_nonneg _
  cases lrc with
  | absent => exact hnn _
  | undecodable => exact hnn _
  | decoded entries =>
    unfold play
    simp only
    split
    · rename_i hlt
      exact le_of_lt hlt
    · exact hnn _

theorem reachable_cursor_bounds {s : MusicPlayerPrivate} (h : Reachable s) :
    0 ≤ s.m_lyricIndex ∧ s.m_lyricIndex ≤ s.m_nextIndex ∧
      s.m_nextIndex ≤ s.m_lyricsModel.count := by
  induction h with
  | init => exact ⟨le_refl (0 : Int), le_refl (0 : Int), le_refl (0 : Int)⟩
  | play url lrc hs _ =>
    refine ⟨?_, reachable_cursor_ordered (Reachable.play url lrc hs),
      play_cursor_bounds url lrc _⟩
    rw [(play_cursor url lrc _).1]
  | resolved title singer album duration _ ih => exact ih
  | setProgress ratio hs ih =>
    obtain ⟨a, b⟩ := setProgress_cursor_bounds ratio _ ih.1 ih.2.2
    exact ⟨a, reachable_cursor_ordered (Reachable.setProgress ratio hs), b⟩
  | update bytesFree periodSize src _ hu ih => exact update_cursor_bounds hu ih.1 ih.2.1 ih.2.2

end MusicPlayer

/-- C15: in every state reachable by `play`, source resolution, `setProgress`
and pump ticks, the lyric cursor satisfies 0 <= current <= next, and next is
at most count - 1 or equal to count, the number of entries of the installed
timeline. -/
theorem reachable_cursor_within_timeline (s : MusicPlayerPrivate) (hs : Reachable s) :
    0 ≤ s.m_lyricIndex ∧ s.m_lyricIndex ≤ s.m_nextIndex ∧
    (s.m_nextIndex ≤ s.m_lyricsModel.count - 1 ∨ s.m_nextIndex = s.m_lyricsModel.count) := by
  obtain ⟨h0, h1, h2⟩ := MusicPlayer.reachable_cursor_bounds hs
  exact ⟨h0, h1, by omega⟩

/-- The witness of C15: the scenario state, three entries and cursor (0, 1). -/
theorem reachable_cursor_within_timeline_witness :
    Reachable MusicPlayer.scenarioState ∧
    ((0 : Int) ≤ MusicPlayer.scenarioState.m_lyricIndex ∧
      MusicPlayer.scenarioState.m_lyricIndex ≤ MusicPlayer.scenarioState.m_nextIndex ∧
      (MusicPlayer.scenarioState.m_nextIndex ≤ MusicPlayer.scenarioState.m_lyricsModel.count - 1 ∨
        MusicPlayer.scenarioState.m_nextIndex = MusicPlayer.scenarioState.m_lyricsModel.count)) :=
  ⟨scenario_reachable,
    reachable_cursor_within_timeline MusicPlayer.scenarioState scenario_reachable⟩

/-! ## Timeline lookups outside the entries (C19) -/

namespace MusicPlayer

theorem setProgress_synced {s : MusicPlayerPrivate} {ratio : qreal} {i : Int}
    (ha : seekAccepted s ratio = true) (hl : s.m_hasLyrics = true)
    (hf : firstAfter (seekPts ratio s.m_duration) s.m_lyricsModel 0 = some i) :
    setProgress ratio s = synced
      { s with m_progress := ratio, m_audioBuffer := [],
               emitted := s.emitted ++ [Signal.progressChanged],
               decoderCalls := s.decoderCalls ++ [DecoderCall.setProgress ratio] } i := by
  rw [setProgress_eq_seekLyrics ha]
  rcases seekLyrics_cases
    { s with m_progress := ratio, m_audioBuffer := [],
             emitted := s.emitted ++ [Signal.progressChanged],
             decoderCalls := s.decoderCalls ++ [DecoderCall.setProgress ratio] } ratio
    with ⟨_, hnone⟩ | ⟨_, j, hsome, heq⟩
  · have := hnone hl
    rw [hf] at this
    cases this
  · rw [hf] at hsome
    cases hsome
    exact heq

theorem packetStep_fault_next {s : MusicPlayerPrivate} {t : qreal} {cur : LyricData}
    (hl : s.m_hasLyrics = true)
    (hc : s.m_lyricsModel.entryAt s.m_lyricIndex = some cur)
    (h1 : lyricPts t > cur.pts)
    (hn : s.m_lyricsModel.entryAt s.m_nextIndex = none) :
    packetStep s t = Except.error Fault.lyricOutOfRange := by
  simp [packetStep, lyricStep, hl, hc, hn, h1]

theorem sought_eq :
    soughtState = synced
      { singleState with m_progress := 1 / 100, m_audioBuffer := [],
                         emitted := singleState.emitted ++ [Signal.progressChanged],
                         decoderCalls := singleState.decoderCalls ++
                           [DecoderCall.setProgress (1 / 100)] } 0 := by
  have hrun : singleState.m_running = true := rfl
  have hprog : singleState.m_progress = 0 := rfl
  have hdur : singleState.m_duration = 200 := rfl
  have hm : singleState.m_lyricsModel = singleLyrics := rfl
  have ha : seekAccepted singleState (1 / 100) = true := by
    rw [seekAccepted_iff, hrun, hprog]
    norm_num [abs_of_pos]
  have hpts : seekPts (1 / 100) singleState.m_duration = 2000 := by
    rw [hdur]; exact seekPts_one_hundredth_of_200
  have hf : firstAfter (seekPts (1 / 100) singleState.m_duration)
      singleState.m_lyricsModel 0 = some 0 := by
    rw [hpts, hm]
    decide
  exact setProgress_synced ha rfl hf

end MusicPlayer

/-- C19, evaluated on the code: the state reached by `play` of a track with a
one-entry timeline (entry at 5000 ms), its resolution, and a seek to 2000 ms
has lyrics active and next = 1 = count; a tick that pulls a packet at 13 s
makes the lookup at index 1 and finds no entry there. -/
theorem seek_before_single_entry_overruns :
    Reachable MusicPlayer.soughtState ∧
    MusicPlayer.soughtState.m_hasLyrics = true ∧
    MusicPlayer.soughtState.m_lyricsModel.count = 1 ∧
    MusicPlayer.soughtState.m_lyricIndex = 0 ∧
    MusicPlayer.soughtState.m_nextIndex = 1 ∧
    ¬ (MusicPlayer.soughtState.m_nextIndex < MusicPlayer.soughtState.m_lyricsModel.count) ∧
    MusicPlayer.update 8 4 MusicPlayer.lateSource MusicPlayer.soughtState =
      Except.error Fault.lyricOutOfRange := by
  have hreach : Reachable MusicPlayer.soughtState :=
    Reachable.setProgress (1 / 100)
      (Reachable.resolved "title" "singer" "album" 200
        (Reachable.play "song.mp3" (MusicPlayer.LrcFile.decoded MusicPlayer.singleLyrics)
          Reachable.init))
  have hl : MusicPlayer.soughtState.m_hasLyrics = true := by
    rw [MusicPlayer.sought_eq]; rfl
  have hcount : MusicPlayer.soughtState.m_lyricsModel.count = 1 := by
    rw [MusicPlayer.sought_eq]; rfl
  have hcur : MusicPlayer.soughtState.m_lyricIndex = 0 := by
    rw [MusicPlayer.sought_eq]; rfl
  have hnext : MusicPlayer.soughtState.m_nextIndex = 1 := by
    rw [MusicPlayer.sought_eq]; rfl
  have hdur : MusicPlayer.soughtState.m_duration = 200 := by
    rw [MusicPlayer.sought_eq]; rfl
  have hbuf : MusicPlayer.soughtState.m_audioBuffer = [] := by
    rw [MusicPlayer.sought_eq]; rfl
  have hsink : MusicPlayer.soughtState.m_audioOutput = true := by
    rw [MusicPlayer.sought_eq]; rfl
  have hc : MusicPlayer.soughtState.m_lyricsModel.entryAt
      MusicPlayer.soughtState.m_lyricIndex = some ⟨"only", 5000⟩ := by
    rw [MusicPlayer.sought_eq]; rfl
  have hn : MusicPlayer.soughtState.m_lyricsModel.entryAt
      MusicPlayer.soughtState.m_nextIndex = none := by
    rw [MusicPlayer.sought_eq]; rfl
  have hp : MusicPlayer.lyricPts 13 = 13000 := by norm_num [MusicPlayer.lyricPts, toInt64, wrapInt64]
  refine ⟨hreach, hl, hcount, hcur, hnext, by rw [hnext, hcount]; decide, ?_⟩
  apply update_of_pullLoop_error hsink
  have hb : MusicPlayer.pullBudget 8 MusicPlayer.soughtState = 7 + 1 := by
    rw [MusicPlayer.pullBudget, hbuf]; rfl
  rw [hb]
  apply pullLoop_fault_step
  · rw [hbuf]; decide
  · rw [hdur]; norm_num [MusicPlayer.endOfStream, MusicPlayer.lateSource]
  · have h1 : MusicPlayer.lyricPts (MusicPlayer.lateSource 0).time >
        (⟨"only", 5000⟩ : LyricData).pts := by
      show MusicPlayer.lyricPts 13 > 5000
      rw [hp]; decide
    exact MusicPlayer.packetStep_fault_next hl hc h1 hn

/-! ## The pull loop terminates (C20) -/

namespace MusicPlayer

theorem pullLoop_pulls_bound (bytesFree : Int) (src : Nat → AudioPacket) :
    ∀ fuel k s r, pullLoop bytesFree src fuel k s = Except.ok r →
      r.pulls ≤ k + (bytesFree - s.m_audioBuffer.size).toNat ∧
      ∀ j, k ≤ j → j + 1 < r.pulls →
        (src j).data ≠ [] ∧ endOfStream s.m_duration (src j) = false := by
  apply pullLoop_induct bytesFree src (fun k s r =>
      r.pulls ≤ k + (bytesFree - s.m_audioBuffer.size).toNat ∧
      ∀ j, k ≤ j → j + 1 < r.pulls →
        (src j).data ≠ [] ∧ endOfStream s.m_duration (src j) = false)
  · intro k s _
    refine ⟨Nat.le_add_right _ _, ?_⟩
    intro j hkj hj
    have hj2 : j + 1 < k := hj
    omega
  · intro k s hlt _
    refine ⟨?_, ?_⟩
    · show k + 1 ≤ k + (bytesFree - s.m_audioBuffer.size).toNat
      omega
    · intro j hkj hj
      have hj2 : j + 1 < k + 1 := hj
      omega
  · intro k s s1 hlt _ _ _
    refine ⟨?_, ?_⟩
    · show k + 1 ≤ k + (bytesFree - s.m_audioBuffer.size).toNat
      omega
    · intro j hkj hj
      have hj2 : j + 1 < k + 1 := hj
      omega
  · intro k s s1 r hlt he hp hd ih
    obtain ⟨hf, _⟩ := packetStep_frame hp
    have hbuf : s1.m_audioBuffer = s.m_audioBuffer := by rw [hf]
    have hdur : s1.m_duration = s.m_duration := by rw [hf]
    have hpos : 0 < (src k).data.length := List.length_pos.2 hd
    obtain ⟨ih1, ih2⟩ := ih
    simp only [QByteArray.size, hbuf, List.length_append, Nat.cast_add] at ih1 hlt ⊢
    refine ⟨by omega, ?_⟩
    intro j hkj hj
    by_cases hjk : j = k
    · subst hjk
      exact ⟨hd, he⟩
    · have := ih2 j (by omega) hj
      simpa [hdur] using this

theorem packetStep_no_lyrics {s : MusicPlayerPrivate} (t : qreal)
    (h : s.m_hasLyrics = false) :
    packetStep s t = Except.ok
      (emit { s with m_progress := t / s.m_duration } Signal.progressChanged) := by
  simp [packetStep, lyricStep, h]

theorem pullLoop_total_no_lyrics (bytesFree : Int) (src : Nat → AudioPacket) :
    ∀ (fuel k : Nat) (s : MusicPlayerPrivate), s.m_hasLyrics = false →
      (bytesFree - s.m_audioBuffer.size).toNat ≤ fuel →
      ∃ r, pullLoop bytesFree src fuel k s = Except.ok r := by
  intro fuel
  induction fuel with
  | zero =>
    intro k s _ hb
    have hlt : ¬ s.m_audioBuffer.size < bytesFree := by omega
    rw [pullLoop, if_neg hlt]
    exact ⟨_, rfl⟩
  | succ fuel ih =>
    intro k s hl hb
    rw [pullLoop]
    by_cases hlt : s.m_audioBuffer.size < bytesFree
    · rw [if_pos hlt]
      by_cases he : endOfStream s.m_duration (src k) = true
      · simp only [he, if_true]
        exact ⟨_, rfl⟩
      · simp only [he, packetStep_no_lyrics _ hl]
        cases hd : (src k).data with
        | nil => exact ⟨_, rfl⟩
        | cons a l =>
          simp only [List.isEmpty_cons, Bool.false_eq_true, if_false]
          apply ih
          · exact hl
          · simp only [QByteArray.size, emit, List.length_append, List.length_cons,
              Nat.cast_add, Nat.cast_one] at hlt hb ⊢
            omega
    · rw [if_neg hlt]
      exact ⟨_, rfl⟩

theorem pullLoop_fuel_irrelevant (bytesFree : Int) (src : Nat → AudioPacket) :
    ∀ (fuel1 fuel2 k : Nat) (s : MusicPlayerPrivate),
      (bytesFree - s.m_audioBuffer.size).toNat ≤ fuel1 →
      (bytesFree - s.m_audioBuffer.size).toNat ≤ fuel2 →
      pullLoop bytesFree src fuel1 k s = pullLoop bytesFree src fuel2 k s := by
  intro fuel1
  induction fuel1 with
  | zero =>
    intro fuel2 k s h1 _
    have hlt : ¬ s.m_audioBuffer.size < bytesFree := by omega
    cases fuel2 with
    | zero => rfl
    | succ m => rw [pullLoop, pullLoop, if_neg hlt, if_neg hlt]
  | succ n ih =>
    intro fuel2 k s h1 h2
    cases fuel2 with
    | zero =>
      have hlt : ¬ s.m_audioBuffer.size < bytesFree := by omega
      rw [pullLoop, pullLoop, if_neg hlt, if_neg hlt]
    | succ m =>
      rw [pullLoop, pullLoop]
      by_cases hlt : s.m_audioBuffer.size < bytesFree
      · rw [if_pos hlt, if_pos hlt]
        by_cases he : endOfStream s.m_duration (src k) = true
        · simp only [he, if_true]
        · simp only [he]
          cases hp : packetStep s (src k).time with
          | error f => rfl
          | ok s1 =>
            cases hd : (src k).data with
            | nil => rfl
            | cons a l =>
              simp only [List.isEmpty_cons, Bool.false_eq_true, if_false]
              have hbuf : s1.m_audioBuffer = s.m_audioBuffer := by
                rw [(packetStep_frame hp).1]
              apply ih
              · simp only [QByteArray.size, hbuf, List.length_append, List.length_cons,
                  Nat.cast_add, Nat.cast_one] at hlt h1 ⊢
                omega
              · simp only [QByteArray.size, hbuf, List.length_append, List.length_cons,
                  Nat.cast_add, Nat.cast_one] at hlt h2 ⊢
                omega
      · rw [if_neg hlt, if_neg hlt]

end MusicPlayer

/-- C20: with `s` bytes staged and the free capacity `F` of the sink fixed
during the tick, the pull loop of a tick ends after at most `max(0, F - s)`
packet pulls, whatever the packets: the bound `max(0, F - s)` on the number of
iterations is never what stops the loop, any larger bound gives the same
outcome, a completed loop made at most `max(0, F - s)` pulls, every pull but
the last one was neither end of stream nor empty (so it appended at least one
byte), and with lyrics inactive the loop always completes. -/
theorem pullLoop_terminates_within_free_capacity (bytesFree : Int)
    (src : Nat → AudioPacket) (s : MusicPlayerPrivate) :
    ((MusicPlayer.pullBudget bytesFree s : Nat) : Int) =
      max 0 (bytesFree - s.m_audioBuffer.size) ∧
    MusicPlayer.pullLoop bytesFree src (MusicPlayer.pullBudget bytesFree s) 0 s ≠
      Except.error Fault.outOfFuel ∧
    (∀ fuel, MusicPlayer.pullBudget bytesFree s ≤ fuel →
      MusicPlayer.pullLoop bytesFree src fuel 0 s =
        MusicPlayer.pullLoop bytesFree src (MusicPlayer.pullBudget bytesFree s) 0 s) ∧
    (∀ r, MusicPlayer.pullLoop bytesFree src (MusicPlayer.pullBudget bytesFree s) 0 s =
        Except.ok r →
      (r.pulls : Int) ≤ max 0 (bytesFree - s.m_audioBuffer.size) ∧
      ∀ k, k + 1 < r.pulls →
        (src k).data ≠ [] ∧ MusicPlayer.endOfStream s.m_duration (src k) = false) ∧
    (s.m_hasLyrics = false →
      ∃ r, MusicPlayer.pullLoop bytesFree src (MusicPlayer.pullBudget bytesFree s) 0 s =
        Except.ok r) := by
  have hb : ((MusicPlayer.pullBudget bytesFree s : Nat) : Int) =
      max 0 (bytesFree - s.m_audioBuffer.size) := by
    unfold MusicPlayer.pullBudget
    omega
  refine ⟨hb, ?_, ?_, ?_, ?_⟩
  · exact MusicPlayer.pullLoop_never_out_of_fuel bytesFree src _ 0 s (le_refl _)
  · intro fuel hf
    exact MusicPlayer.pullLoop_fuel_irrelevant bytesFree src fuel _ 0 s hf (le_refl _)
  · intro r hr
    obtain ⟨h1, h2⟩ := MusicPlayer.pullLoop_pulls_bound bytesFree src _ _ _ _ hr
    refine ⟨?_, fun k hk => h2 k (Nat.zero_le k) hk⟩
    rw [← hb]
    unfold MusicPlayer.pullBudget
    omega
  · intro hl
    exact MusicPlayer.pullLoop_total_no_lyrics bytesFree src _ 0 s hl (le_refl _)

/-! ## The progress stays between 0 and 1 (C16) -/

namespace MusicPlayer

theorem packetStep_progress {s s2 : MusicPlayerPrivate} {t : qreal}
    (h : packetStep s t = Except.ok s2) : s2.m_progress = t / s.m_duration := by
  obtain ⟨s1, hl, rfl⟩ := packetStep_eq h
  rcases lyricStep_cases hl with ⟨rfl, _⟩ | ⟨rfl, _⟩ <;> rfl

theorem ratio_of_running_packet {duration : qreal} {packet : AudioPacket}
    (he : endOfStream duration packet = false) (ht : 0 ≤ packet.time) :
    0 ≤ packet.time / duration ∧ packet.time / duration < 1 := by
  have hlt : packet.time < duration := by
    by_contra hge
    have : endOfStream duration packet = true :=
      (endOfStream_iff duration packet).2 (Or.inl (not_lt.1 hge))
    rw [he] at this
    cases this
  have hd : 0 < duration := lt_of_le_of_lt ht hlt
  exact ⟨div_nonneg ht hd.le, (div_lt_one hd).2 hlt⟩

theorem pullLoop_progress (bytesFree : Int) (src : Nat → AudioPacket)
    (ht : ∀ k, 0 ≤ (src k).time) :
    ∀ fuel k s r, pullLoop bytesFree src fuel k s = Except.ok r →
      (0 ≤ s.m_progress ∧ s.m_progress ≤ 1) →
      (0 ≤ r.state.m_progress ∧ r.state.m_progress ≤ 1) := by
  apply pullLoop_induct bytesFree src (fun _ s r =>
      (0 ≤ s.m_progress ∧ s.m_progress ≤ 1) →
      (0 ≤ r.state.m_progress ∧ r.state.m_progress ≤ 1))
  · intro k s _ h; exact h
  · intro k s _ _ _
    show (0 : ℚ) ≤ 1 ∧ (1 : ℚ) ≤ 1
    exact ⟨zero_le_one, le_refl _⟩
  · intro k s s1 _ he hp _ _
    obtain ⟨a, b⟩ := ratio_of_running_packet he (ht k)
    rw [packetStep_progress hp]
    exact ⟨a, b.le⟩
  · intro k s s1 r _ he hp _ ih _
    obtain ⟨a, b⟩ := ratio_of_running_packet he (ht k)
    apply ih
    show 0 ≤ s1.m_progress ∧ s1.m_progress ≤ 1
    rw [packetStep_progress hp]
    exact ⟨a, b.le⟩

theorem update_progress {bytesFree periodSize : Int} {src : Nat → AudioPacket}
    {s : MusicPlayerPrivate} {r : Pulled} (ht : ∀ k, 0 ≤ (src k).time)
    (h : update bytesFree periodSize src s = Except.ok r)
    (hs : 0 ≤ s.m_progress ∧ s.m_progress ≤ 1) :
    0 ≤ r.state.m_progress ∧ r.state.m_progress ≤ 1 := by
  obtain ⟨_, r0, hp, hr⟩ := update_cases h
  have key := pullLoop_progress bytesFree src ht _ _ _ _ hp hs
  rcases hr with ⟨_, rfl⟩ | ⟨_, s1, hd, rfl⟩
  · exact key
  · have hf := (drain_conserves hd).1
    have e1 : s1.m_progress = r0.state.m_progress := by rw [hf]
    show 0 ≤ s1.m_progress ∧ s1.m_progress ≤ 1
    rw [e1]
    exact key

theorem setProgress_progress (ratio : qreal) (s : MusicPlayerPrivate)
    (h0 : 0 ≤ ratio) (h1 : ratio ≤ 1) (hs : 0 ≤ s.m_progress ∧ s.m_progress ≤ 1) :
    0 ≤ (setProgress ratio s).m_progress ∧ (setProgress ratio s).m_progress ≤ 1 := by
  by_cases ha : seekAccepted s ratio = true
  · rw [(setProgress_accepted ha).1]
    exact ⟨h0, h1⟩
  · rw [setProgress, if_neg ha]
    exact hs

theorem play_progress (url : String) (lrc : LrcFile) (s : MusicPlayerPrivate) :
    (play url lrc s).m_progress = 0 := by
  cases lrc with
  | absent => rfl
  | undecodable => rfl
  | decoded entries =>
    unfold play
    simp only
    split <;> rfl

theorem reachableWithin_progress {s : MusicPlayerPrivate} (h : ReachableWithin s) :
    0 ≤ s.m_progress ∧ s.m_progress ≤ 1 := by
  induction h with
  | init => exact ⟨le_refl (0 : ℚ), zero_le_one⟩
  | play url lrc _ _ =>
    rw [play_progress]
    exact ⟨le_refl (0 : ℚ), zero_le_one⟩
  | resolved title singer album duration _ _ ih => exact ih
  | setProgress ratio h0 h1 _ ih => exact setProgress_progress ratio _ h0 h1 ih
  | update bytesFree periodSize src ht _ hu ih => exact update_progress ht hu ih

end MusicPlayer

/-- C16: in every state reachable by `play`, resolutions with a duration
greater than 0, seeks to a ratio between 0 and 1 and ticks whose packets have
a time of at least 0, the progress lies between 0 and 1; from such a state a
packet step that is not the end of the stream sets the progress to
time / duration, which is at least 0 and below 1, and the end-of-stream branch
sets it to 1. -/
theorem progress_within_unit_interval (s : MusicPlayerPrivate) (hs : ReachableWithin s) :
    (0 ≤ s.m_progress ∧ s.m_progress ≤ 1) ∧
    (∀ (packet : AudioPacket) (s1 : MusicPlayerPrivate),
      MusicPlayer.endOfStream s.m_duration packet = false → 0 ≤ packet.time →
      MusicPlayer.packetStep s packet.time = Except.ok s1 →
      s1.m_progress = packet.time / s.m_duration ∧
      0 ≤ s1.m_progress ∧ s1.m_progress < 1) ∧
    (MusicPlayer.finishStream s).m_progress = 1 := by
  refine ⟨MusicPlayer.reachableWithin_progress hs, ?_, rfl⟩
  intro packet s1 he ht hp
  have h := MusicPlayer.packetStep_progress hp
  obtain ⟨a, b⟩ := MusicPlayer.ratio_of_running_packet he ht
  rw [h]
  exact ⟨rfl, a, b⟩

theorem scenario_ticked_within : ReachableWithin MusicPlayer.scenarioTicked.state :=
  ReachableWithin.update 8 4 MusicPlayer.lateSource
    (fun _ => by norm_num [MusicPlayer.lateSource])
    (ReachableWithin.resolved "title" "singer" "album" 200 (by norm_num)
      (ReachableWithin.play "song.mp3" (MusicPlayer.LrcFile.decoded MusicPlayer.scenarioLyrics)
        ReachableWithin.init))
    scenario_tick

/-- The witness of C16: the scenario state after a tick on a packet at 13 s of
200 s, where the progress is 13/200. -/
theorem progress_within_unit_interval_witness :
    ReachableWithin MusicPlayer.scenarioTicked.state ∧
    MusicPlayer.scenarioTicked.state.m_progress = 13 / 200 ∧
    (0 ≤ MusicPlayer.scenarioTicked.state.m_progress ∧
      MusicPlayer.scenarioTicked.state.m_progress ≤ 1) :=
  ⟨scenario_ticked_within, rfl,
    (progress_within_unit_interval MusicPlayer.scenarioTicked.state
      scenario_ticked_within).1⟩

/-! ## Deduplication of added files (C17) -/

namespace MusicPlayer

theorem contains_answer (s : MusicPlayerPrivate) (f : String) :
    (s.contains f).1 = decide (f ∈ s.m_files) := by
  unfold MusicPlayerPrivate.contains
  by_cases h : f ∈ s.m_files
  · rw [if_pos h]; simp [h]
  · rw [if_neg h]; simp [h]

theorem contains_files (s : MusicPlayerPrivate) (f g : String) :
    g ∈ (s.contains f).2.m_files ↔ g = f ∨ g ∈ s.m_files := by
  unfold MusicPlayerPrivate.contains
  by_cases h : f ∈ s.m_files
  · rw [if_pos h]
    constructor
    · exact Or.inr
    · rintro (rfl | hg)
      · exact h
      · exact hg
  · rw [if_neg h]
    simp only [List.mem_append, List.mem_singleton]
    tauto

theorem contains_model (s : MusicPlayerPrivate) (f : String) :
    (s.contains f).2.m_musicModel = s.m_musicModel := by
  unfold MusicPlayerPrivate.contains
  by_cases h : f ∈ s.m_files
  · rw [if_pos h]
  · rw [if_neg h]

theorem addMusic_cases (toLocalFile suffix : String → String) (create : String → Bool)
    (s : MusicPlayerPrivate) (url : String) :
    ((suffix (toLocalFile url) ∈ SubtitleFormat ∨ toLocalFile url ∈ s.m_files) ∧
      addMusic toLocalFile suffix create s url = s) ∨
    (suffix (toLocalFile url) ∉ SubtitleFormat ∧ toLocalFile url ∉ s.m_files ∧
      addMusic toLocalFile suffix create s url =
        { s with m_files := s.m_files ++ [toLocalFile url],
                 m_musicModel := if create url = true then s.m_musicModel ++ [url]
                                 else s.m_musicModel }) := by
  unfold addMusic MusicPlayerPrivate.contains
  by_cases hsub : suffix (toLocalFile url) ∈ SubtitleFormat
  · left
    exact ⟨Or.inl hsub, by rw [if_pos hsub]⟩
  · by_cases hf : toLocalFile url ∈ s.m_files
    · left
      refine ⟨Or.inr hf, ?_⟩
      simp only
      rw [if_neg hsub, if_pos hf]
      rfl
    · right
      refine ⟨hsub, hf, ?_⟩
      simp only
      rw [if_neg hsub, if_neg hf]
      by_cases hc : create url = true
      · rw [if_pos hc]
        simp only [Bool.false_eq_true, if_false]
        rw [if_pos hc]
      · rw [if_neg hc]
        simp only [Bool.false_eq_true, if_false]
        rw [if_neg hc]

end MusicPlayer

namespace MusicPlayer

theorem addMusic_grows (toLocalFile suffix : String → String) (create : String → Bool)
    (s : MusicPlayerPrivate) (url g : String) (hg : g ∈ s.m_files) :
    g ∈ (addMusic toLocalFile suffix create s url).m_files := by
  rcases addMusic_cases toLocalFile suffix create s url with ⟨_, h⟩ | ⟨_, _, h⟩
  · rw [h]; exact hg
  · rw [h]; exact List.mem_append_left _ hg

theorem addMusic_appended (toLocalFile suffix : String → String) (create : String → Bool)
    (s : MusicPlayerPrivate) (url u : String)
    (hu : u ∈ (addMusic toLocalFile suffix create s url).m_musicModel) :
    u ∈ s.m_musicModel ∨ toLocalFile u ∉ s.m_files := by
  rcases addMusic_cases toLocalFile suffix create s url with ⟨_, h⟩ | ⟨_, hf, h⟩
  · rw [h] at hu; exact Or.inl hu
  · rw [h] at hu
    by_cases hc : create url = true
    · have hu2 : u ∈ s.m_musicModel ++ [url] := by simpa [hc] using hu
      rcases List.mem_append.1 hu2 with hm | hm
      · exact Or.inl hm
      · rw [List.mem_singleton] at hm
        subst hm
        exact Or.inr hf
    · have hu2 : u ∈ s.m_musicModel := by simpa [hc] using hu
      exact Or.inl hu2

theorem addMusic_invariant (toLocalFile suffix : String → String) (create : String → Bool)
    (s : MusicPlayerPrivate) (url : String)
    (h1 : (s.m_musicModel.map toLocalFile).Nodup)
    (h2 : ∀ u ∈ s.m_musicModel, toLocalFile u ∈ s.m_files) :
    ((addMusic toLocalFile suffix create s url).m_musicModel.map toLocalFile).Nodup ∧
    ∀ u ∈ (addMusic toLocalFile suffix create s url).m_musicModel,
      toLocalFile u ∈ (addMusic toLocalFile suffix create s url).m_files := by
  rcases addMusic_cases toLocalFile suffix create s url with ⟨_, h⟩ | ⟨_, hf, h⟩
  · rw [h]; exact ⟨h1, h2⟩
  · rw [h]
    by_cases hc : create url = true
    · simp only [hc, if_true]
      constructor
      · rw [List.map_append, List.map_singleton]
        refine List.Nodup.append h1 (List.nodup_singleton _) ?_
        intro g hg1 hg2
        rw [List.mem_singleton] at hg2
        subst hg2
        obtain ⟨u, hu, hue⟩ := List.mem_map.1 hg1
        exact hf (hue ▸ h2 u hu)
      · intro u hu
        rcases List.mem_append.1 hu with hm | hm
        · exact List.mem_append_left _ (h2 u hm)
        · rw [List.mem_singleton] at hm
          subst hm
          exact List.mem_append_right _ (List.mem_singleton_self _)
    · simp only [hc, Bool.false_eq_true, if_false]
      exact ⟨h1, fun u hu => List.mem_append_left _ (h2 u hu)⟩

theorem foldl_addMusic (toLocalFile suffix : String → String) (create : String → Bool) :
    ∀ (urls : List String) (s : MusicPlayerPrivate),
      ((s.m_musicModel.map toLocalFile).Nodup →
        (∀ u ∈ s.m_musicModel, toLocalFile u ∈ s.m_files) →
        (((urls.foldl (addMusic toLocalFile suffix create) s).m_musicModel.map
            toLocalFile).Nodup ∧
          ∀ u ∈ (urls.foldl (addMusic toLocalFile suffix create) s).m_musicModel,
            toLocalFile u ∈ (urls.foldl (addMusic toLocalFile suffix create) s).m_files)) ∧
      (∀ g ∈ s.m_files, g ∈ (urls.foldl (addMusic toLocalFile suffix create) s).m_files) ∧
      (∀ u ∈ (urls.foldl (addMusic toLocalFile suffix create) s).m_musicModel,
        u ∈ s.m_musicModel ∨ toLocalFile u ∉ s.m_files) := by
  intro urls
  induction urls with
  | nil =>
    intro s
    exact ⟨fun h1 h2 => ⟨h1, h2⟩, fun g hg => hg, fun u hu => Or.inl hu⟩
  | cons url rest ih =>
    intro s
    obtain ⟨i1, i2, i3⟩ := ih (addMusic toLocalFile suffix create s url)
    refine ⟨?_, ?_, ?_⟩
    · intro h1 h2
      obtain ⟨a, b⟩ := addMusic_invariant toLocalFile suffix create s url h1 h2
      exact i1 a b
    · intro g hg
      exact i2 g (addMusic_grows toLocalFile suffix create s url g hg)
    · intro u hu
      rcases i3 u hu with hm | hm
      · exact addMusic_appended toLocalFile suffix create s url u hm
      · exact Or.inr (fun hin => hm (addMusic_grows toLocalFile suffix create s url _ hin))

theorem addMusicLists_invariant (toLocalFile suffix : String → String)
    (create : String → Bool) :
    ∀ (calls : List (List String)) (s : MusicPlayerPrivate),
      (s.m_musicModel.map toLocalFile).Nodup →
      (∀ u ∈ s.m_musicModel, toLocalFile u ∈ s.m_files) →
      ((addMusicLists toLocalFile suffix create calls s).m_musicModel.map
          toLocalFile).Nodup ∧
        ∀ u ∈ (addMusicLists toLocalFile suffix create calls s).m_musicModel,
          toLocalFile u ∈ (addMusicLists toLocalFile suffix create calls s).m_files := by
  intro calls
  induction calls with
  | nil => intro s h1 h2; exact ⟨h1, h2⟩
  | cons urls rest ih =>
    intro s h1 h2
    obtain ⟨a, b⟩ := (foldl_addMusic toLocalFile suffix create urls s).1 h1 h2
    exact ih (addMusicList toLocalFile suffix create urls s) a b

theorem containsEach_answers : ∀ (fs : List String) (s : MusicPlayerPrivate) (k : Nat)
    (f : String), fs.get? k = some f →
    (containsEach fs s).1.get? k = some (decide (f ∈ s.m_files ∨ f ∈ fs.take k)) := by
  intro fs
  induction fs with
  | nil => intro s k f h; simp at h
  | cons a rest ih =>
    intro s k f h
    cases k with
    | zero =>
      simp only [List.get?_cons_zero, Option.some.injEq] at h
      subst h
      simp [containsEach, contains_answer]
    | succ k =>
      simp only [List.get?_cons_succ] at h
      have key := ih (s.contains a).2 k f h
      simp only [containsEach, List.get?_cons_succ, key, Option.some.injEq, List.take_succ_cons,
        List.mem_cons, contains_files]
      congr 1
      apply propext
      tauto

end MusicPlayer

/-- C17: whatever the local file names, suffixes and results of
`MusicData::create`, after any sequence of `addMusicList` calls on the
constructed state no local file path occurs twice among the entries appended
to the music model; in a sequence of `contains` queries the answer to a query
is true exactly when the same path was queried earlier; the dedup set only
grows, under `contains` and under `addMusicList`; a URL whose path `contains`
reports as present is not appended, and every entry that `addMusicList`
appends has a path that was absent from the dedup set before the call. -/
theorem addMusicList_appends_each_path_once (toLocalFile suffix : String → String)
    (create : String → Bool) :
    (∀ calls : List (List String),
      ((MusicPlayer.addMusicLists toLocalFile suffix create calls
        MusicPlayer.init).m_musicModel.map toLocalFile).Nodup) ∧
    (∀ (fs : List String) (k : Nat) (f : String), fs.get? k = some f →
      (MusicPlayer.containsEach fs MusicPlayer.init).1.get? k =
        some (decide (f ∈ fs.take k))) ∧
    (∀ (s : MusicPlayerPrivate) (f g : String),
      g ∈ s.m_files → g ∈ (s.contains f).2.m_files) ∧
    (∀ (urls : List String) (s : MusicPlayerPrivate) (g : String),
      g ∈ s.m_files →
      g ∈ (MusicPlayer.addMusicList toLocalFile suffix create urls s).m_files) ∧
    (∀ (s : MusicPlayerPrivate) (url : String),
      (s.contains (toLocalFile url)).1 = true →
      (MusicPlayer.addMusic toLocalFile suffix create s url).m_musicModel =
        s.m_musicModel) ∧
    (∀ (urls : List String) (s : MusicPlayerPrivate) (u : String),
      u ∈ (MusicPlayer.addMusicList toLocalFile suffix create urls s).m_musicModel →
      u ∈ s.m_musicModel ∨ toLocalFile u ∉ s.m_files) := by
  refine ⟨?_, ?_, ?_, ?_, ?_, ?_⟩
  · intro calls
    exact (MusicPlayer.addMusicLists_invariant toLocalFile suffix create calls
      MusicPlayer.init List.nodup_nil (fun u hu => absurd hu (List.not_mem_nil u))).1
  · intro fs k f h
    have key := MusicPlayer.containsEach_answers fs MusicPlayer.init k f h
    rw [key]
    have hempty : MusicPlayer.init.m_files = [] := rfl
    simp [hempty]
  · intro s f g hg
    exact (MusicPlayer.contains_files s f g).2 (Or.inr hg)
  · intro urls s g hg
    exact (MusicPlayer.foldl_addMusic toLocalFile suffix create urls s).2.1 g hg
  · intro s url hq
    rw [MusicPlayer.contains_answer] at hq
    have hf : toLocalFile url ∈ s.m_files := by simpa using hq
    rcases MusicPlayer.addMusic_cases toLocalFile suffix create s url with ⟨_, h⟩ | ⟨_, hn, _⟩
    · rw [h]
    · exact absurd hf hn
  · intro urls s u hu
    exact (MusicPlayer.foldl_addMusic toLocalFile suffix create urls s).2.2 u hu

/-- The witness of C17: adding one track twice, a lyric file and another track
appends the two tracks once each and records their two paths. -/
theorem addMusicList_appends_each_path_once_witness :
    (MusicPlayer.addMusicList id MusicPlayer.exampleSuffix (fun _ => true)
      MusicPlayer.exampleUrls MusicPlayer.init).m_musicModel = ["a.mp3", "c.mp3"] ∧
    (MusicPlayer.addMusicList id MusicPlayer.exampleSuffix (fun _ => true)
      MusicPlayer.exampleUrls MusicPlayer.init).m_files = ["a.mp3", "c.mp3"] ∧
    ((MusicPlayer.addMusicLists id MusicPlayer.exampleSuffix (fun _ => true)
      [MusicPlayer.exampleUrls, MusicPlayer.exampleUrls]
      MusicPlayer.init).m_musicModel.map id).Nodup :=
  ⟨by decide, by decide,
    (addMusicList_appends_each_path_once id MusicPlayer.exampleSuffix (fun _ => true)).1
      [MusicPlayer.exampleUrls, MusicPlayer.exampleUrls]⟩

/-! ## The lyric advance of a packet step, in every state (C6, C9) -/

namespace MusicPlayer

theorem packetStep_outcome {s s2 : MusicPlayerPrivate} {t : qreal}
    (hl : s.m_hasLyrics = true) (h : packetStep s t = Except.ok s2) :
    ((∃ cur nxt, s.m_lyricsModel.entryAt s.m_lyricIndex = some cur ∧
        s.m_lyricsModel.entryAt s.m_nextIndex = some nxt ∧
        lyricPts t > cur.pts ∧ lyricPts t > nxt.pts) ∧
      s2 = emit { advanced s with m_progress := t / s.m_duration } Signal.progressChanged) ∨
    ((¬ ∃ cur nxt, s.m_lyricsModel.entryAt s.m_lyricIndex = some cur ∧
        s.m_lyricsModel.entryAt s.m_nextIndex = some nxt ∧
        lyricPts t > cur.pts ∧ lyricPts t > nxt.pts) ∧
      (∃ cur, s.m_lyricsModel.entryAt s.m_lyricIndex = some cur ∧
        (lyricPts t > cur.pts → ∃ nxt, s.m_lyricsModel.entryAt s.m_nextIndex = some nxt)) ∧
      s2 = emit { s with m_progress := t / s.m_duration } Signal.progressChanged) := by
  obtain ⟨s1, h1, rfl⟩ := packetStep_eq h
  rcases lyricStep_cases h1 with ⟨rfl, hstay⟩ | ⟨rfl, _, cur, nxt, hc, hn, hgt1, hgt2⟩
  · right
    obtain ⟨cur, hc, hnext⟩ := hstay hl
    refine ⟨?_, ⟨cur, hc, fun hgt => ?_⟩, rfl⟩
    · rintro ⟨cur1, nxt1, hc1, hn1, hgt1, hgt2⟩
      rw [hc] at hc1
      cases hc1
      obtain ⟨nxt, hn, hle⟩ := hnext hgt1
      rw [hn] at hn1
      cases hn1
      exact hle hgt2
    · obtain ⟨nxt, hn, _⟩ := hnext hgt
      exact ⟨nxt, hn⟩
  · left
    exact ⟨⟨cur, nxt, hc, hn, hgt1, hgt2⟩, rfl⟩

end MusicPlayer

/-- C9, amended: in every state with lyrics active, a completed packet step
that is not the end of the stream emits `lyricIndexChanged` if and only if the
lyric index after the step differs from the index before, or current and next
were the same entry and the millisecond position is greater than its
timestamp (the index then stays as it was). -/
theorem lyricIndexChanged_emitted_iff (s : MusicPlayerPrivate) (t : qreal)
    (hl : s.m_hasLyrics = true) (s1 : MusicPlayerPrivate)
    (h : MusicPlayer.packetStep s t = Except.ok s1) :
    Signal.lyricIndexChanged ∈ MusicPlayer.emittedSince s s1 ↔
      (s1.m_lyricIndex ≠ s.m_lyricIndex ∨
        (s.m_lyricIndex = s.m_nextIndex ∧
          ∃ cur, s.m_lyricsModel.entryAt s.m_lyricIndex = some cur ∧
            MusicPlayer.lyricPts t > cur.pts)) := by
  rcases MusicPlayer.packetStep_outcome hl h with
    ⟨⟨cur, nxt, hc, hn, hgt1, hgt2⟩, rfl⟩ | ⟨hno, ⟨cur, hc, hnext⟩, rfl⟩
  · have he : MusicPlayer.emittedSince s
        (MusicPlayer.emit { MusicPlayer.advanced s with m_progress := t / s.m_duration }
          Signal.progressChanged) = [Signal.lyricIndexChanged, Signal.progressChanged] := by
      apply MusicPlayer.emittedSince_append
      simp [MusicPlayer.emit, MusicPlayer.advanced]
    rw [he]
    constructor
    · intro _
      by_cases heq : s.m_lyricIndex = s.m_nextIndex
      · exact Or.inr ⟨heq, cur, hc, hgt1⟩
      · exact Or.inl (fun hx => heq hx.symm)
    · intro _
      simp
  · have he : MusicPlayer.emittedSince s
        (MusicPlayer.emit { s with m_progress := t / s.m_duration }
          Signal.progressChanged) = [Signal.progressChanged] := by
      apply MusicPlayer.emittedSince_append
      simp [MusicPlayer.emit]
    rw [he]
    constructor
    · intro hmem
      simp at hmem
    · rintro (hne | ⟨heq, cur1, hc1, hgt⟩)
      · exact absurd rfl hne
      · exfalso
        apply hno
        refine ⟨cur1, cur1, hc1, ?_, hgt, hgt⟩
        rw [← heq]
        exact hc1

/-- The witness of the amended C9: the third packet at 13 s of the scenario,
where current and next are both the last entry; the signal is emitted and the
index stays 2. -/
theorem lyricIndexChanged_emitted_iff_witness :
    MusicPlayer.scenarioLast.m_hasLyrics = true ∧
    MusicPlayer.packetStep MusicPlayer.scenarioLast 13 =
      Except.ok MusicPlayer.scenarioLastAgain ∧
    (Signal.lyricIndexChanged ∈
        MusicPlayer.emittedSince MusicPlayer.scenarioLast MusicPlayer.scenarioLastAgain ↔
      (MusicPlayer.scenarioLastAgain.m_lyricIndex ≠ MusicPlayer.scenarioLast.m_lyricIndex ∨
        (MusicPlayer.scenarioLast.m_lyricIndex = MusicPlayer.scenarioLast.m_nextIndex ∧
          ∃ cur, MusicPlayer.scenarioLast.m_lyricsModel.entryAt
              MusicPlayer.scenarioLast.m_lyricIndex = some cur ∧
            MusicPlayer.lyricPts 13 > cur.pts))) :=
  ⟨rfl, scenario_third_step,
    lyricIndexChanged_emitted_iff MusicPlayer.scenarioLast 13 rfl
      MusicPlayer.scenarioLastAgain scenario_third_step⟩
